import Mathlib

/-!
# Day 12 scanline region-labeling engine: a shallow embedding

This file embeds the scanline connected-region labeling engine of the
repository (src/bin/day12: segment.rs, parser.rs, plot.rs, garden.rs,
main.rs) into Lean and proves/refutes the frozen specification claims.

Modeling conventions:
* Rust machine integers become Nat; wrapping casts and wrapping
  arithmetic are made explicit with a modulus where overflow can occur.
* The coordinate type Seed is referenced by parser.rs, plot.rs and
  main.rs but its defining line is absent from the available sources
  (the stale copy of segment.rs hard-codes u8 coordinates, which does
  not typecheck against plot.rs, whose corner-key container
  HashMap-of-u16 and Seed::MAX sentinels force Seed = u16).  We take
  Seed = u16 (bound 65536) for the parser/plot pipeline, and model the
  stale segment.rs extractor separately with its literal u8 cast
  (bound 256).
* Fallible paths (Option::unwrap / .expect panics) become Option.
* BTreeSet (Plot rows) is modeled as a strictly sorted list, BTreeMap
  (the garden) as a strictly sorted association list; the range
  queries of plot.rs become filters over those lists, which agree with
  BTreeSet ranges on sorted lists.
-/

namespace Day12

/-- Bound of the Seed coordinate type (u16), as required by plot.rs. -/
def seedBound : Nat := 65536

/-- Largest Seed value, Seed::MAX in the source. -/
def seedMax : Nat := 65535

/-- Bound of usize (the line-number type). -/
def usizeBound : Nat := 18446744073709551616

/-- usize::MAX in the source. -/
def usizeMax : Nat := 18446744073709551615

/-- segment.rs: a single-line run of one plant, with a half-open
column range.  PlotSegment(char, Range of Seed). -/
structure PlotSegment where
  plant : Char
  start : Nat
  stop : Nat
deriving DecidableEq, Repr

/-- segment.rs len(): end - start (as usize; start invariantly below stop). -/
def PlotSegment.len (s : PlotSegment) : Nat := s.stop - s.start

/-- segment.rs is_overlapping(): self.start < other.end AND self.end > other.start. -/
def PlotSegment.is_overlapping (a b : PlotSegment) : Bool :=
  decide (a.start < b.stop) && decide (a.stop > b.start)

/-- segment.rs get_overlap(): (self.end min other.end) - (self.start max other.start).
The subtraction is a machine subtraction that panics on underflow; here it is
Nat truncated subtraction, and claim C8 shows no underflow occurs for
overlapping well-formed segments. -/
def PlotSegment.get_overlap (a b : PlotSegment) : Nat :=
  min a.stop b.stop - max a.start b.start

/-- The strict total order on PlotSegment used by its Ord instance in
segment.rs: by plant (code point), then range start, then range end. -/
def PlotSegment.ltB (a b : PlotSegment) : Bool :=
  decide (a.plant.toNat < b.plant.toNat) ||
    (decide (a.plant.toNat = b.plant.toNat) &&
      (decide (a.start < b.start) ||
        (decide (a.start = b.start) && decide (a.stop < b.stop))))

/-- Non-strict companion of PlotSegment.ltB. -/
def PlotSegment.leB (a b : PlotSegment) : Bool := !(PlotSegment.ltB b a)

/-- Shared shape of the two run-length extractors (segment.rs uses a u8
cast, parser.rs a Seed = u16 cast): walk the line one character at a
time, keeping the current run plant, its start column and the running
column index; the index advances with wrapping addition modulo the
width of the coordinate type, exactly as the `as` cast plus += does in
the chunk_by fold of the source. -/
def extractAux (w : Nat) : List Char → Char → Nat → Nat → List PlotSegment
  | [], plant, start, idx => [⟨plant, start, idx⟩]
  | c :: cs, plant, start, idx =>
      if c = plant then extractAux w cs plant start ((idx + 1) % w)
      else ⟨plant, start, idx⟩ :: extractAux w cs c idx ((idx + 1) % w)

/-- segment.rs extract_ranges: run-length extraction with u8 column
coordinates (the cast in `idx += chunk.len() as u8` wraps modulo 256). -/
def extract_ranges_u8 (line : List Char) : List PlotSegment :=
  match line with
  | [] => []
  | c :: cs => extractAux 256 cs c 0 (1 % 256)

/-- parser.rs extract_ranges: identical shape, but coordinates are cast
to Seed = u16 (wraps modulo 65536). -/
def extract_ranges (line : List Char) : List PlotSegment :=
  match line with
  | [] => []
  | c :: cs => extractAux seedBound cs c 0 (1 % seedBound)

/-- One entry of the active-line table LastGardenScanLine: a segment,
its plot id, and the matched flag. -/
abbrev GLineEntry := PlotSegment × Nat × Bool

/-- parser.rs LastGardenScanLine: a vector of (segment, id, matched). -/
abbrev GLine := List GLineEntry

/-- Placeholder entry used to totalize in-range indexing (the source
indexes with indices produced by overlaps, which are always in range). -/
def dfltEntry : GLineEntry := (⟨'A', 0, 0⟩, 0, false)

/-- parser.rs LastGardenScanLine::overlaps: scan the stored segments,
stopping as soon as a stored segment start is not below the query
segment end (take_while), and return (index, id) of every same-plant
overlapping entry.  Indices are positions in the full vector (enumerate
is applied after take_while, and take_while keeps a prefix). -/
def GLine.overlaps (gl : GLine) (segment : PlotSegment) : List (Nat × Nat) :=
  ((gl.takeWhile (fun e => decide (segment.stop > e.1.start))).enum).filterMap
    (fun p =>
      if p.2.1.plant = segment.plant ∧ p.2.1.is_overlapping segment then
        some (p.1, p.2.2.1)
      else none)

/-- garden.rs LastGardenScanLine::overlaps: same filter, but scanning
the whole vector with no early exit. -/
def GLine.overlaps_full (gl : GLine) (segment : PlotSegment) : List (Nat × Nat) :=
  gl.enum.filterMap
    (fun p =>
      if p.2.1.plant = segment.plant ∧ p.2.1.is_overlapping segment then
        some (p.1, p.2.2.1)
      else none)

/-- parser.rs LastGardenScanLine::push. -/
def GLine.push (gl : GLine) (segment : PlotSegment) (id : Nat) : GLine :=
  gl ++ [(segment, id, false)]

/-- parser.rs LastGardenScanLine::flag_matched: set one matched flag. -/
def GLine.flag_matched (gl : GLine) (index : Nat) : GLine :=
  match gl.get? index with
  | some (seg, id, _) => gl.set index (seg, id, true)
  | none => gl

/-- parser.rs LastGardenScanLine::find_replace_plot_id: rewrite every
entry holding from_id to to_id. -/
def GLine.find_replace_plot_id (gl : GLine) (from_id to_id : Nat) : GLine :=
  gl.map (fun e => if e.2.1 = from_id then (e.1, to_id, e.2.2) else e)

/-- parser.rs LastGardenScanLine::drain_unmatched: the entries whose
matched flag is still false. -/
def GLine.drain_unmatched (gl : GLine) : GLine :=
  gl.filter (fun e => !e.2.2)

/-- The strict order on plot entries (line, segment): lexicographic by
line number, then by the segment order, as in BTreeSet of (usize, PlotSegment). -/
def entryLtB (a b : Nat × PlotSegment) : Bool :=
  decide (a.1 < b.1) || (decide (a.1 = b.1) && PlotSegment.ltB a.2 b.2)

/-- Non-strict companion of entryLtB. -/
def entryLeB (a b : Nat × PlotSegment) : Bool := !(entryLtB b a)

/-- plot.rs Plot: the rows BTreeSet, modeled as a strictly sorted
duplicate-free list of (line, segment) entries. -/
abbrev Plot := List (Nat × PlotSegment)

/-- BTreeSet::insert on the sorted-list model: ordered insertion that
drops an exact duplicate. -/
def Plot.insertE : Plot → Nat × PlotSegment → Plot
  | [], e => [e]
  | x :: xs, e =>
      if entryLtB e x then e :: x :: xs
      else if e = x then x :: xs
      else x :: Plot.insertE xs e

/-- plot.rs Plot::insert(y, segment). -/
def Plot.insert (p : Plot) (y : Nat) (segment : PlotSegment) : Plot :=
  Plot.insertE p (y, segment)

/-- plot.rs Plot::extend: insert every row of the other plot. -/
def Plot.extend (p other : Plot) : Plot :=
  other.foldl Plot.insertE p

/-- plot.rs Plot::area: sum of segment lengths over all rows.  Note the
source returns 0 on an empty plot; there is no emptiness check here. -/
def Plot.area (p : Plot) : Nat :=
  (p.map (fun e => e.2.len)).sum

/-- plot.rs Plot::get_plot_bounding_segs: the west sentinel (plant, 0..1)
and east sentinel (plant, Seed::MAX-1..Seed::MAX) used as BTreeSet range
bounds.  The source unwraps rows.first(), so an empty plot panics: none. -/
def Plot.get_plot_bounding_segs (p : Plot) : Option (PlotSegment × PlotSegment) :=
  p.head?.map (fun e =>
    (⟨e.2.plant, 0, 1⟩, ⟨e.2.plant, seedMax - 1, seedMax⟩))

/-- The inclusive BTreeSet range query rows.range(lo..=hi) on the
sorted-list model: the entries between the two bounds. -/
def Plot.rangeIncl (p : Plot) (lo hi : Nat × PlotSegment) : Plot :=
  p.filter (fun e => entryLeB lo e && entryLeB e hi)

/-- The half-open BTreeSet range query rows.range(lo..hi). -/
def Plot.rangeExcl (p : Plot) (lo hi : Nat × PlotSegment) : Plot :=
  p.filter (fun e => entryLeB lo e && entryLtB e hi)

/-- Modelled from the spec: PlotSegment::count_horizontal_edges, whose
defining line is absent from the available segment.rs.  The spec says the
horizontal-edge contribution of an entry is its overlap with the
adjacent line, and the in-source caller main.rs computes exactly
"filter is_overlapping, map get_overlap, sum" against the adjacent
adjacent-line segments; the argument is the adjacent-line row iterator. -/
def PlotSegment.count_horizontal_edges (s : PlotSegment) (row : Plot) : Nat :=
  ((row.filter (fun e => e.2.is_overlapping s)).map
    (fun e => e.2.get_overlap s)).sum

/-- The fold body of edge_count_north_south: shift the 3-row window
(above, current, below) one line down and add, for every segment of the
current row, twice its length minus its overlaps with the row above and
the row below. -/
def edgeBody (p : Plot) (west east : PlotSegment)
    (st : Plot × Plot × Plot × Nat) (y : Nat) : Plot × Plot × Plot × Nat :=
  (st.2.1, st.2.2.1, p.rangeIncl (y + 2, west) (y + 2, east),
   st.2.2.2 + (st.2.1.map (fun e =>
     2 * e.2.len
       - PlotSegment.count_horizontal_edges e.2 st.1
       - PlotSegment.count_horizontal_edges e.2 st.2.2.1)).sum)

/-- plot.rs Plot::edge_count_north_south: fold a 3-row sliding window
(above, current, below) over the line range of the plot, adding for every
segment of the current row 2*len minus its overlap with the row above
and below.  The initial above-window is the (empty) range at lines
usize::MAX-1 ..= usize::MAX.  The source unwraps first()/last() on the
rows, so an empty plot panics: none. -/
def Plot.edge_count_north_south (p : Plot) : Option Nat := do
  let (west, east) ← p.get_plot_bounding_segs
  let first ← p.head?
  let last ← p.getLast?
  let start := first.1
  let res := (List.range' start (last.1 + 1 - start)).foldl
    (edgeBody p west east)
    (p.rangeIncl (usizeMax - 1, west) (usizeMax, east),
     p.rangeIncl (start, west) (start, east),
     p.rangeIncl (start + 1, west) (start + 1, east),
     0)
  some res.2.2.2

/-- plot.rs Plot::perimeter_count: north/south edges plus two vertical
edges per row entry. -/
def Plot.perimeter_count (p : Plot) : Option Nat :=
  (p.edge_count_north_south).map (fun n => n + p.length * 2)

/-- One insert-or-cancel step of the corners HashMap of plot.rs
sides_count: inserting a key that is already present removes it. -/
def xorKey (cs : List Nat) (k : Nat) : List Nat :=
  if k ∈ cs then cs.erase k else cs ++ [k]

/-- The projection keys of one entry in sides_count: start*10 and
end*10 - 1, computed in u16 (wrapping, modulo 65536). -/
def cornerKeys (e : Nat × PlotSegment) : List Nat :=
  [(10 * e.2.start) % seedBound, (10 * e.2.stop + (seedBound - 1)) % seedBound]

/-- The fold body of plot.rs Plot::sides_count: XOR the projection
keys of the segments of the current two-line window (a key seen an odd
number of times is a corner) and slide the window one line down.  The
windows are the half-open BTreeSet ranges (y, west)..(y+1, east) of
the source. -/
def sidesBody (p : Plot) (west east : PlotSegment)
    (st : Plot × Nat) (y : Nat) : Plot × Nat :=
  (p.rangeExcl (y, west) (y + 1, east),
   st.2 + ((st.1.flatMap cornerKeys).foldl xorKey []).length)

/-- plot.rs Plot::sides_count proper: the fold of sidesBody over the
line range, started on the first-line window, plus two corners per
segment left in the final window. -/
def Plot.sides_count (p : Plot) : Option Nat := do
  let (west, east) ← p.get_plot_bounding_segs
  let first ← p.head?
  let last ← p.getLast?
  let start := first.1
  let res := (List.range' start (last.1 + 1 - start)).foldl
    (sidesBody p west east)
    (p.rangeExcl (start, west) (start, east), 0)
  some (res.2 + res.1.length * 2)

/-- parser.rs garden store: BTreeMap from plot id to Plot, modeled as a
strictly key-sorted association list. -/
abbrev Garden := List (Nat × Plot)

/-- plots.entry(id).or_default().insert(line, seg). -/
def Garden.entryInsert : Garden → Nat → Nat × PlotSegment → Garden
  | [], id, e => [(id, Plot.insertE [] e)]
  | (k, p) :: g, id, e =>
      if id < k then (id, Plot.insertE [] e) :: (k, p) :: g
      else if id = k then (k, Plot.insertE p e) :: g
      else (k, p) :: Garden.entryInsert g id e

/-- plots.entry(id).or_default().extend(q). -/
def Garden.extend : Garden → Nat → Plot → Garden
  | [], id, q => [(id, Plot.extend [] q)]
  | (k, p) :: g, id, q =>
      if id < k then (id, Plot.extend [] q) :: (k, p) :: g
      else if id = k then (k, Plot.extend p q) :: g
      else (k, p) :: Garden.extend g id q

/-- plots.remove(&id): the removed plot and the remaining store, or
none when the id is absent (in which case the source then panics in .unwrap()). -/
def Garden.remove : Garden → Nat → Option (Plot × Garden)
  | [], _ => none
  | (k, p) :: g, id =>
      if id = k then some (p, g)
      else (Garden.remove g id).map (fun r => (r.1, (k, p) :: r.2))

/-- parser.rs push_segments: move scanline entries into the store under
their ids at row line-1. -/
def push_segments (plots : Garden) (g_line : GLine) (line : Nat) : Garden :=
  g_line.foldl (fun g e => Garden.entryInsert g e.2.1 (line - 1, e.1)) plots

/-- The per-match fold body inside parser.rs process_segment: flag the
matched scanline entry, copy its (line-1, segment) into the store under
its current id, and push that id onto the deprecated list when it is
not the master. -/
def segBody (line : Nat) (acc : Garden × GLine × Nat × Option (List Nat))
    (m : Nat × Nat) : Garden × GLine × Nat × Option (List Nat) :=
  let gl := acc.2.1.flag_matched m.1
  let e := gl.getD m.1 dfltEntry
  let garden := acc.1.entryInsert e.2.1 (line - 1, e.1)
  let depr := if e.2.1 ≠ acc.2.2.1 then some (acc.2.2.2.getD [] ++ [e.2.1])
    else acc.2.2.2
  (garden, gl, acc.2.2.1, depr)

/-- parser.rs process_segment.  The id generator is the explicit
counter (id_generator yields counter and increments it).  Returns the
new store, the flagged scanline, the resolved id, the deprecated ids
(if any) and the new counter.  matched is sorted by id with a stable
sort, as sort_by_key does, and master is read back from the scanline at
the first sorted index, as in the source. -/
def process_segment (segment : PlotSegment) (plots : Garden) (g_line : GLine)
    (line : Nat) (counter : Nat) :
    Garden × GLine × Nat × Option (List Nat) × Nat :=
  let matched := g_line.overlaps segment
  if matched.isEmpty then (plots, g_line, counter, none, counter + 1)
  else
    let sorted := List.insertionSort (fun a b : Nat × Nat => a.2 ≤ b.2) matched
    let master_id := (g_line.getD (sorted.headD (0, 0)).1 dfltEntry).2.1
    let res := sorted.foldl (segBody line) (plots, g_line, master_id, none)
    (res.1, res.2.1, res.2.2.1, res.2.2.2, counter)

/-- The body of the deprecated-ids loop inside parser.rs process_line:
remove the deprecated plot from the store (panic, i.e. none, when it
was already removed), fold its rows into the resolved id, and rewrite
the deprecated id in both the old and the new scanline. -/
def depr_step (seg_id : Nat) (st : Garden × GLine × GLine) (plot_id : Nat) :
    Option (Garden × GLine × GLine) := do
  let (plot, plots) ← st.1.remove plot_id
  some (plots.extend seg_id plot,
        st.2.1.find_replace_plot_id plot_id seg_id,
        st.2.2.find_replace_plot_id plot_id seg_id)

/-- The per-segment body of the fold inside parser.rs process_line:
run process_segment, push the segment onto the new scanline under its
resolved id, then handle the deprecated ids. -/
def process_line_step (line : Nat) (st : Garden × GLine × GLine × Nat)
    (segment : PlotSegment) : Option (Garden × GLine × GLine × Nat) :=
  let r := process_segment segment st.1 st.2.1 line st.2.2.2
  let new_g_line := st.2.2.1.push segment r.2.2.1
  match r.2.2.2.1 with
  | none => some (r.1, r.2.1, new_g_line, r.2.2.2.2)
  | some ids => do
      let s ← ids.foldlM (depr_step r.2.2.1) (r.1, r.2.1, new_g_line)
      some (s.1, s.2.1, s.2.2, r.2.2.2.2)

/-- parser.rs process_line: fold every extracted segment of the row
through process_line_step, then move the unmatched scanline entries
into the store, and continue with the new scanline. -/
def process_line (input : List Char) (plots : Garden) (g_line : GLine)
    (counter : Nat) (line : Nat) : Option (Garden × GLine × Nat) := do
  let st ← (extract_ranges input).foldlM (process_line_step line)
    (plots, g_line, ([] : GLine), counter)
  some (push_segments st.1 st.2.1.drain_unmatched line, st.2.2.1, st.2.2.2)

/-- parser.rs parse_plots with the id generator started at n instead
of 0 (the line counter is the row index; the two id_generator
closures are the explicit counter and the enumeration). -/
def parse_plots_from (n : Nat) (input : List (List Char)) : Option Garden := do
  let st ← input.enum.foldlM
    (fun (acc : Garden × GLine × Nat) p =>
      process_line p.2 acc.1 acc.2.1 acc.2.2 p.1)
    ([], [], n)
  some (push_segments st.1 st.2.1 input.length)

/-- parser.rs parse_plots: both generators start at 0, and the final
drain stores the last scanline under line count - 1. -/
def parse_plots (input : List (List Char)) : Option Garden :=
  parse_plots_from 0 input

/-- The observable metrics of one plot: (area, perimeter, sides). -/
def plotMetrics (p : Plot) : Nat × Option Nat × Option Nat :=
  (p.area, p.perimeter_count, p.sides_count)

/-- The multiset of per-region metrics produced by a parse whose id
generator starts at n (none when parsing panics). -/
def metrics_from (n : Nat) (input : List (List Char)) :
    Option (Multiset (Nat × Option Nat × Option Nat)) :=
  (parse_plots_from n input).map
    (fun g => Multiset.ofList (g.map (fun kp => plotMetrics kp.2)))

/-- Lookup in the garden store (BTreeMap::get). -/
def Garden.find? : Garden → Nat → Option Plot
  | [], _ => none
  | (k, p) :: g, id => if id = k then some p else Garden.find? g id

/-- The plot ids held by an active-line table. -/
def idsOfG (gl : GLine) : List Nat := gl.map (fun e => e.2.1)

/-- The keys of the garden store. -/
def keysOf (g : Garden) : List Nat := g.map Prod.fst

/-- depr_step instrumented with the list of ids deprecated so far (a
ghost output; the computation is exactly depr_step). -/
def depr_step_d (seg_id : Nat) (st : Garden × GLine × GLine × List Nat)
    (plot_id : Nat) : Option (Garden × GLine × GLine × List Nat) := do
  let (plot, plots) ← st.1.remove plot_id
  some (plots.extend seg_id plot,
        st.2.1.find_replace_plot_id plot_id seg_id,
        st.2.2.1.find_replace_plot_id plot_id seg_id,
        st.2.2.2 ++ [plot_id])

/-- process_line_step instrumented with the deprecated-id ghost list. -/
def process_line_step_d (line : Nat)
    (st : Garden × GLine × GLine × Nat × List Nat) (segment : PlotSegment) :
    Option (Garden × GLine × GLine × Nat × List Nat) :=
  let r := process_segment segment st.1 st.2.1 line st.2.2.2.1
  let new_g_line := st.2.2.1.push segment r.2.2.1
  match r.2.2.2.1 with
  | none => some (r.1, r.2.1, new_g_line, r.2.2.2.2, st.2.2.2.2)
  | some ids => do
      let s ← ids.foldlM (depr_step_d r.2.2.1) (r.1, r.2.1, new_g_line, st.2.2.2.2)
      some (s.1, s.2.1, s.2.2.1, r.2.2.2.2, s.2.2.2)

/-- process_line instrumented with the list of ids deprecated during
the line (a ghost output; the computation is exactly process_line). -/
def process_line_d (input : List Char) (plots : Garden) (g_line : GLine)
    (counter : Nat) (line : Nat) : Option (Garden × GLine × Nat × List Nat) := do
  let st ← (extract_ranges input).foldlM (process_line_step_d line)
    (plots, g_line, ([] : GLine), counter, ([] : List Nat))
  some (push_segments st.1 st.2.1.drain_unmatched line, st.2.2.1, st.2.2.2.1,
        st.2.2.2.2)

/-- An isolated axis-aligned rectangle of width W and height H with its
top-left cell at column x0, row y0: one segment per row. -/
def rectPlot (c : Char) (x0 y0 W H : Nat) : Plot :=
  (List.range H).map (fun i => (y0 + i, ⟨c, x0, x0 + W⟩))

/-- A grid on which a single new segment matches three predecessor
entries whose ids are 0, 2 and 2: the deprecated-id list then holds id
2 twice, and the second remove(&2).unwrap() in process_line panics. -/
def dupDeprGrid : List (List Char) :=
  [['A', 'B', 'A', 'B', 'A'],
   ['A', 'B', 'A', 'A', 'A'],
   ['A', 'B', 'A', 'B', 'A'],
   ['A', 'A', 'A', 'A', 'A']]

/-- The row of rectPlot at line k: its one segment when k is inside
the rectangle, nothing otherwise. -/
def rectRow (c : Char) (x0 y0 W H k : Nat) : Plot :=
  if y0 ≤ k ∧ k < y0 + H then [(k, ⟨c, x0, x0 + W⟩)] else []

/-- A concrete scanline for the deprecation-chain run: the previous row
AABAAABAA with ids 2, 3, 5, 4 and 1. -/
def glW : GLine :=
  [(⟨'A', 0, 2⟩, 2, false), (⟨'B', 2, 3⟩, 3, false), (⟨'A', 3, 6⟩, 5, false),
   (⟨'B', 6, 7⟩, 4, false), (⟨'A', 7, 9⟩, 1, false)]

/-- A store holding one plot per id of the scanline glW, keys sorted. -/
def plotsW : Garden :=
  [(1, [(0, ⟨'A', 7, 9⟩)]), (2, [(0, ⟨'A', 0, 2⟩)]), (3, [(0, ⟨'B', 2, 3⟩)]),
   (4, [(0, ⟨'B', 6, 7⟩)]), (5, [(0, ⟨'A', 3, 6⟩)])]

/-- The row AAAABAAAA: its first segment merges ids 2 and 5 (5 is
deprecated into 2), and its last segment then merges ids 1 and 2 (2 is
deprecated into 1) — a two-step deprecation chain within one line. -/
def rowW : List Char :=
  ['A', 'A', 'A', 'A', 'B', 'A', 'A', 'A', 'A']

/-- The state after running the instrumented line on the chain data:
ids 5 and then 2 were deprecated, and no table or key mentions them. -/
def outW : Garden × GLine × Nat × List Nat :=
  ([(1, [(0, ⟨'A', 0, 2⟩), (0, ⟨'A', 3, 6⟩), (0, ⟨'A', 7, 9⟩)]),
    (3, [(0, ⟨'B', 2, 3⟩)]),
    (4, [(0, ⟨'B', 6, 7⟩)])],
   [(⟨'A', 0, 4⟩, 1, false), (⟨'B', 4, 5⟩, 6, false), (⟨'A', 5, 9⟩, 1, false)],
   7,
   [5, 2])

/-- main.rs parse_garden matched filter (lines 60-71): the indices of
every same-plant overlapping entry of the current active map, scanning
the whole vector in index order.  The source flags those entries in
place during the same pass; the flag never feeds back into the
predicate, so the model collects the indices first and flags after. -/
def mainMatched (gl : GLine) (segment : PlotSegment) : List Nat :=
  gl.enum.filterMap
    (fun p =>
      if p.2.1.plant = segment.plant ∧ p.2.1.is_overlapping segment then
        some p.1
      else none)

/-- Set the matched flag of every listed index. -/
def flagAll (gl : GLine) (idxs : List Nat) : GLine :=
  idxs.foldl (fun g i => g.flag_matched i) gl

/-- The body of the while-pop merge loop of main.rs parse_garden (lines
86-102): copy the matched entry into the garden under its own id at the
current line, and when that id differs from the master, remove it
(unwrap: none if it were absent) and fold its rows into the master. -/
def mainMergeStep (line master : Nat) (gl : GLine) (g : Garden) (index : Nat) :
    Option Garden :=
  let e := gl.getD index dfltEntry
  let g2 := g.entryInsert e.2.1 (line, e.1)
  if e.2.1 ≠ master then do
    let (plot, g3) ← g2.remove e.2.1
    some (g3.extend master plot)
  else some g2

/-- One segment of a row in main.rs parse_garden (lines 57-103):
filter-and-flag the matches, then either push a fresh id (no match) or
push under the id of the first matched index - cur_aseg[matched[0]]
at line 80, in scan order, with no sort - and run the merge loop over
the matched indices in pop (reverse) order. -/
def main_seg_step (line : Nat) (st : Garden × GLine × GLine × Nat)
    (segment : PlotSegment) : Option (Garden × GLine × GLine × Nat) :=
  let matched := mainMatched st.2.1 segment
  let cur2 := flagAll st.2.1 matched
  match matched with
  | [] => some (st.1, cur2, st.2.2.1.push segment st.2.2.2, st.2.2.2 + 1)
  | i0 :: _ =>
      let master := (cur2.getD i0 dfltEntry).2.1
      (matched.reverse.foldlM (mainMergeStep line master cur2) st.1).map
        (fun g2 => (g2, cur2, st.2.2.1.push segment master, st.2.2.2))

/-- The end-of-row drain of main.rs parse_garden (lines 105-110): pop
the current map in reverse order; unmatched entries go to the garden
under their id at the current line number (not line - 1 as parser.rs). -/
def main_drain (g : Garden) (cur : GLine) (line : Nat) : Garden :=
  cur.reverse.foldl
    (fun g e => if e.2.2 then g else g.entryInsert e.2.1 (line, e.1)) g

/-- One row of main.rs parse_garden: fold the segments extracted by the
u8 extractor of segment.rs (which main.rs imports), drain the unmatched
entries of the current map, and swap in the next map. -/
def main_line (st : Garden × GLine × Nat) (p : Nat × List Char) :
    Option (Garden × GLine × Nat) := do
  let r ← (extract_ranges_u8 p.2).foldlM (main_seg_step p.1)
    (st.1, st.2.1, ([] : GLine), st.2.2)
  some (main_drain r.1 r.2.1 p.1, r.2.2.1, r.2.2.2)

/-- main.rs parse_garden (lines 35-124): fold the rows, then move every
leftover active segment into the garden at the line count (the source
writes line + 1 with line the last row index; on empty input the
leftover map is empty, so the line value is never used). -/
def parse_garden (input : List (List Char)) : Option Garden := do
  let st ← input.enum.foldlM main_line ([], [], 0)
  some (st.2.1.reverse.foldl
    (fun g e => Garden.entryInsert g e.2.1 (input.length, e.1)) st.1)

/-- The grid CCCAA / ABBAA / AAAAA: after two rows the active map holds
the left A run under the fresh id 2, the B run under 3 and the right A
run under the older id 1, so the third row's bridging segment A0..5
matches ids [2, 1] in scan order. -/
def c2Grid : List (List Char) :=
  [['C', 'C', 'C', 'A', 'A'],
   ['A', 'B', 'B', 'A', 'A'],
   ['A', 'A', 'A', 'A', 'A']]

/-- The state of main.rs parse_garden on c2Grid after its first two
rows. -/
def c2St : Option (Garden × GLine × Nat) :=
  (c2Grid.take 2).enum.foldlM main_line ([], [], 0)

/-- The active map main.rs reaches after the first two rows of c2Grid. -/
def c2Cur : GLine :=
  [(⟨'A', 0, 1⟩, 2, false), (⟨'B', 1, 3⟩, 3, false), (⟨'A', 3, 5⟩, 1, false)]

/-- The garden store main.rs reaches after the first two rows of c2Grid. -/
def c2G2 : Garden :=
  [(0, [(1, ⟨'C', 0, 3⟩)]), (1, [(1, ⟨'A', 3, 5⟩)])]

/-- The final store of main.rs parse_garden on c2Grid: the minimum
matched id 1 is gone, its row (1, A3..5) now lives under id 2. -/
def c2Final : Garden :=
  [(0, [(1, ⟨'C', 0, 3⟩)]),
   (2, [(1, ⟨'A', 3, 5⟩), (2, ⟨'A', 0, 1⟩), (2, ⟨'A', 3, 5⟩), (3, ⟨'A', 0, 5⟩)]),
   (3, [(2, ⟨'B', 1, 3⟩)])]

/-- Shift every plot id of a store by n: the observable effect of
starting the id generator at a different origin.  Row data is untouched. -/
def shiftG (n : Nat) (g : Garden) : Garden :=
  g.map (fun kp => (kp.1 + n, kp.2))

/-- Shift every plot id of a scanline by n. -/
def shiftL (n : Nat) (gl : GLine) : GLine :=
  gl.map (fun e => (e.1, e.2.1 + n, e.2.2))

/-- Shift the id of one (index, id) match by n. -/
def shiftM (n : Nat) (m : Nat × Nat) : Nat × Nat := (m.1, m.2 + n)

/-- Shift a deprecated-id list by n. -/
def shiftD (n : Nat) (d : Option (List Nat)) : Option (List Nat) :=
  d.map (List.map (fun i => i + n))

set_option maxRecDepth 10000

/-- Coordinates produced by extractAux stay below the modulus. -/
theorem extractAux_bounds (w : Nat) :
    ∀ (cs : List Char) (plant : Char) (start idx : Nat), start < w → idx < w →
      ∀ s ∈ extractAux w cs plant start idx, s.start < w ∧ s.stop < w := by
  intro cs
  induction cs with
  | nil =>
      intro plant start idx hs hi s hmem
      simp only [extractAux, List.mem_singleton] at hmem
      subst hmem
      exact ⟨hs, hi⟩
  | cons c cs ih =>
      intro plant start idx hs hi s hmem
      have hw : 0 < w := Nat.lt_of_le_of_lt (Nat.zero_le idx) hi
      simp only [extractAux] at hmem
      by_cases hc : c = plant
      · rw [if_pos hc] at hmem
        exact ih plant start ((idx + 1) % w) hs (Nat.mod_lt _ hw) s hmem
      · rw [if_neg hc] at hmem
        rcases List.mem_cons.mp hmem with h | h
        · subst h
          exact ⟨hs, hi⟩
        · exact ih c idx ((idx + 1) % w) hi (Nat.mod_lt _ hw) s h

/-- C1 (code_bug evidence).  The spec claims that for every input grid
the areas of the regions returned by parse_plots sum to the number of
grid cells.  On dupDeprGrid the final row bridges entries with ids
0, 2 and 2, the deprecated-id list becomes [2, 2], and the second
plots.remove(&2).unwrap() in process_line panics: parse_plots never
returns a region store at all. -/
theorem C1_parse_plots_panics_on_dup_deprecation :
    parse_plots dupDeprGrid = none := by decide

/-- C4 (counterexample).  The claim asserts sides_count() = 4 for every
isolated W x H rectangle with W, H at least 1.  The one-cell rectangle
whose column is Seed::MAX - 1 = 65534 coincides with the east sentinel
segment used as the exclusive BTreeSet range bound inside sides_count,
falls out of every window, and yields 2 instead of 4. -/
theorem C4_sentinel_rectangle_counterexample :
    (rectPlot 'A' 65534 0 1 1).sides_count ≠ some 4 ∧
      (rectPlot 'A' 65534 0 1 1).sides_count = some 2 := by decide

/-- C5 (counterexample).  The claim asserts that all three geometry
functions fail fatally on an empty region and none returns a value
silently; but Plot::area is a plain iterator sum with no emptiness
check and silently returns 0 on the empty region. -/
theorem C5_area_empty_counterexample : Plot.area ([] : Plot) = 0 := by decide

/-- C5 (amended).  On the empty region, perimeter_count() and
sides_count() do fail fatally (they unwrap rows.first(), modeled as
none), but area() silently returns 0. -/
theorem C5_empty_region_geometry :
    Plot.perimeter_count ([] : Plot) = none ∧
      Plot.sides_count ([] : Plot) = none ∧
      Plot.area ([] : Plot) = 0 := by decide

/-- C6 (counterexample).  The claim asserts that a row wider than the
coordinate type fails fast with an explicit grid-too-large error.  The
extractor of segment.rs has no failure path at all: on a 300-wide row
the u8 cast silently wraps the end coordinate to 300 mod 256 = 44. -/
theorem C6_wide_row_wraps_counterexample :
    extract_ranges_u8 (List.replicate 300 'A') = [⟨'A', 0, 44⟩] := by decide

/-- C6 (amended).  Segment extraction is total: it never reports an
error, and every produced coordinate has silently been reduced modulo
256 (the u8 coordinate width used by segment.rs). -/
theorem C6_extraction_total_wraps (line : List Char) (s : PlotSegment)
    (hs : s ∈ extract_ranges_u8 line) : s.start < 256 ∧ s.stop < 256 := by
  cases line with
  | nil => simp [extract_ranges_u8] at hs
  | cons c cs =>
      exact extractAux_bounds 256 cs c 0 (1 % 256) (by decide) (by decide) s hs

/-- Witness for C6_extraction_total_wraps at the 300-wide row. -/
theorem C6_extraction_total_wraps_witness :
    ((⟨'A', 0, 44⟩ : PlotSegment) ∈ extract_ranges_u8 (List.replicate 300 'A')) ∧
      ((⟨'A', 0, 44⟩ : PlotSegment).start < 256 ∧
        (⟨'A', 0, 44⟩ : PlotSegment).stop < 256) :=
  ⟨by decide, C6_extraction_total_wraps (List.replicate 300 'A') ⟨'A', 0, 44⟩ (by decide)⟩

/-- C7.  On empty input text there are no lines, both folds do nothing,
and parse_plots returns the empty region store without any panic. -/
theorem C7_parse_plots_empty_input : parse_plots [] = some [] := by decide

/-- C8.  For well-formed segments (start below end, the data-model
invariant) satisfying the overlap precondition a.start < b.end and
a.end > b.start, get_overlap returns min(a.end, b.end) - max(a.start,
b.start) and the subtraction cannot underflow: the minuend strictly
exceeds the subtrahend, so the machine subtraction is exact. -/
theorem C8_get_overlap_no_underflow (a b : PlotSegment)
    (ha : a.start < a.stop) (hb : b.start < b.stop)
    (h1 : a.start < b.stop) (h2 : a.stop > b.start) :
    max a.start b.start < min a.stop b.stop ∧
      a.get_overlap b + max a.start b.start = min a.stop b.stop ∧
      a.get_overlap b = min a.stop b.stop - max a.start b.start := by
  unfold PlotSegment.get_overlap
  omega

/-- Witness for C8_get_overlap_no_underflow on segments 2..4 and 3..6. -/
theorem C8_get_overlap_no_underflow_witness :
    ((2 : Nat) < 4 ∧ (3 : Nat) < 6 ∧ (2 : Nat) < 6 ∧ (4 : Nat) > 3) ∧
      (max 2 3 < min 4 6 ∧
        PlotSegment.get_overlap ⟨'R', 2, 4⟩ ⟨'R', 3, 6⟩ + max 2 3 = min 4 6 ∧
        PlotSegment.get_overlap ⟨'R', 2, 4⟩ ⟨'R', 3, 6⟩ = min 4 6 - max 2 3) :=
  ⟨by decide,
   C8_get_overlap_no_underflow ⟨'R', 2, 4⟩ ⟨'R', 3, 6⟩
     (by decide) (by decide) (by decide) (by decide)⟩

/-- Early exit is harmless: filtering the enumeration of a takeWhile
prefix equals filtering the full enumeration, provided the filter
returns none on every element failing the guard and the guard is
antitone along the list. -/
theorem takeWhile_enumFrom_filterMap {β : Type} (q : GLineEntry → Bool)
    (f : Nat × GLineEntry → Option β)
    (hnone : ∀ i e, q e = false → f (i, e) = none) :
    ∀ (gl : GLine) (n : Nat),
      gl.Pairwise (fun x y => q y = true → q x = true) →
      ((gl.takeWhile q).enumFrom n).filterMap f = (gl.enumFrom n).filterMap f := by
  intro gl
  induction gl with
  | nil => intro n _; rfl
  | cons e t ih =>
      intro n hp
      rcases List.pairwise_cons.mp hp with ⟨hhead, htail⟩
      rw [List.takeWhile_cons]
      by_cases hq : q e = true
      · rw [if_pos hq]
        rw [List.enumFrom_cons, List.enumFrom_cons, List.filterMap_cons,
          List.filterMap_cons, ih (n + 1) htail]
      · rw [if_neg hq]
        have hqe : q e = false := Bool.eq_false_iff.mpr hq
        have hrest : List.filterMap f (List.enumFrom (n + 1) t) = [] := by
          rw [List.filterMap_eq_nil_iff]
          intro a ha
          rcases a with ⟨i, y⟩
          rcases List.mem_enumFrom ha with ⟨-, hlt, hy⟩
          have hymem : y ∈ t := by
            rw [hy]
            exact List.getElem_mem _
          have : q y = false := by
            by_cases hqy : q y = true
            · exact absurd (hhead y hymem hqy) (by simp [hqe])
            · exact Bool.eq_false_iff.mpr hqy
          exact hnone i y this
        rw [List.enumFrom_cons, List.filterMap_cons, hnone n e hqe, hrest]
        rfl

/-- C10.  On an active-line table whose segments are stored with
nondecreasing start columns (the order process_line pushes them), the
early-exit overlaps of parser.rs returns exactly the matches of the
full-scan overlaps of garden.rs, with identical indices and ids. -/
theorem C10_overlaps_refines_full_scan (gl : GLine) (segment : PlotSegment)
    (hsorted : gl.Pairwise (fun a b => a.1.start ≤ b.1.start)) :
    gl.overlaps segment = gl.overlaps_full segment := by
  unfold GLine.overlaps GLine.overlaps_full
  simp only [List.enum]
  apply takeWhile_enumFrom_filterMap
  · intro i e hqe
    have hle : segment.stop ≤ e.1.start := by
      by_contra hlt
      simp [Nat.lt_of_not_le hlt] at hqe
    have hov : e.1.is_overlapping segment = false := by
      unfold PlotSegment.is_overlapping
      simp [Nat.not_lt.mpr hle]
    rw [if_neg]
    rintro ⟨-, hov2⟩
    rw [hov] at hov2
    exact Bool.false_ne_true hov2
  · refine hsorted.imp ?_
    intro a b hab hqb
    have hb : segment.stop > b.1.start := by
      by_contra h
      simp [Nat.lt_of_not_le] at hqb h
      omega
    exact decide_eq_true (Nat.lt_of_le_of_lt hab hb)

/-- Witness for C10_overlaps_refines_full_scan on a two-entry sorted table. -/
theorem C10_overlaps_refines_full_scan_witness :
    ([((⟨'R', 0, 2⟩ : PlotSegment), 0, false), ((⟨'R', 3, 5⟩ : PlotSegment), 1, false)] : GLine).Pairwise
        (fun a b => a.1.start ≤ b.1.start) ∧
      GLine.overlaps
          [((⟨'R', 0, 2⟩ : PlotSegment), 0, false), ((⟨'R', 3, 5⟩ : PlotSegment), 1, false)]
          ⟨'R', 1, 4⟩ =
        GLine.overlaps_full
          [((⟨'R', 0, 2⟩ : PlotSegment), 0, false), ((⟨'R', 3, 5⟩ : PlotSegment), 1, false)]
          ⟨'R', 1, 4⟩ :=
  ⟨by decide,
   C10_overlaps_refines_full_scan
     [((⟨'R', 0, 2⟩ : PlotSegment), 0, false), ((⟨'R', 3, 5⟩ : PlotSegment), 1, false)]
     ⟨'R', 1, 4⟩ (by decide)⟩

/-- Filtering a contiguous range of lines by an interval keeps a
contiguous range. -/
theorem range'_filter_between (a b : Nat) :
    ∀ (n s : Nat),
      (List.range' s n).filter (fun l => decide (a ≤ l) && decide (l ≤ b)) =
        List.range' (max s a) (min (s + n) (b + 1) - max s a) := by
  intro n
  induction n with
  | zero =>
      intro s
      have h0 : min (s + 0) (b + 1) - max s a = 0 := by omega
      rw [h0]
      rfl
  | succ n ih =>
      intro s
      rw [List.range'_succ, List.filter_cons]
      by_cases h1 : a ≤ s ∧ s ≤ b
      · have hc : (decide (a ≤ s) && decide (s ≤ b)) = true := by
          simp [h1.1, h1.2]
        rw [hc, if_pos rfl, ih]
        have hmax2 : max (s + 1) a = s + 1 := by omega
        have hmax : max s a = s := by omega
        rw [hmax2, hmax]
        have hlen : min (s + (n + 1)) (b + 1) - s =
            (min (s + 1 + n) (b + 1) - (s + 1)) + 1 := by omega
        rw [hlen, List.range'_succ]
      · have hc : (decide (a ≤ s) && decide (s ≤ b)) = false := by
          rcases Decidable.not_and_iff_or_not.mp h1 with h | h <;> simp [h]
        rw [hc]
        simp only [Bool.false_eq_true, if_false]
        rw [ih]
        by_cases h2 : a ≤ s
        · have hb : b < s := by omega
          have hl1 : min (s + 1 + n) (b + 1) - max (s + 1) a = 0 := by omega
          have hl2 : min (s + (n + 1)) (b + 1) - max s a = 0 := by omega
          rw [hl1, hl2, List.range'_zero, List.range'_zero]
        · have hstart : max (s + 1) a = max s a := by omega
          have hlen : min (s + 1 + n) (b + 1) = min (s + (n + 1)) (b + 1) := by omega
          rw [hstart, hlen]

/-- A rectangle segment never compares below the west sentinel. -/
theorem ltb_rect_west (c : Char) (x0 W : Nat) (hW : 1 ≤ W) :
    PlotSegment.ltB ⟨c, x0, x0 + W⟩ ⟨c, 0, 1⟩ = false := by
  apply Bool.eq_false_iff.mpr
  intro h
  simp only [PlotSegment.ltB, Bool.or_eq_true, Bool.and_eq_true,
    decide_eq_true_eq] at h
  omega

/-- The east sentinel never compares below a rectangle segment that
fits the Seed width. -/
theorem ltb_east_rect (c : Char) (x0 W : Nat) (hW : 1 ≤ W)
    (hfit : x0 + W ≤ seedMax) :
    PlotSegment.ltB ⟨c, seedMax - 1, seedMax⟩ ⟨c, x0, x0 + W⟩ = false := by
  unfold seedMax at hfit
  apply Bool.eq_false_iff.mpr
  intro h
  simp only [PlotSegment.ltB, seedMax, Bool.or_eq_true, Bool.and_eq_true,
    decide_eq_true_eq] at h
  omega

/-- A rectangle segment that fits the Seed width and avoids the
sentinel column compares strictly below the east sentinel. -/
theorem ltb_rect_east (c : Char) (x0 W : Nat) (hW : 1 ≤ W)
    (hfit : x0 + W ≤ seedMax) (hx : x0 ≠ seedMax - 1) :
    PlotSegment.ltB ⟨c, x0, x0 + W⟩ ⟨c, seedMax - 1, seedMax⟩ = true := by
  unfold seedMax at hfit hx
  simp only [PlotSegment.ltB, seedMax, Bool.or_eq_true, Bool.and_eq_true,
    decide_eq_true_eq]
  exact Or.inr ⟨by trivial, Or.inl (by omega)⟩

/-- The west sentinel compares below every rectangle entry of the same
plant, so the lower range bound only constrains the line number. -/
theorem west_le_rect (c : Char) (x0 W : Nat) (hW : 1 ≤ W) (k l : Nat) :
    entryLeB (k, ⟨c, 0, 1⟩) (l, ⟨c, x0, x0 + W⟩) = decide (k ≤ l) := by
  unfold entryLeB entryLtB
  rw [ltb_rect_west c x0 W hW]
  by_cases h : k ≤ l
  · have h2 : ¬ (l < k) := by omega
    simp [h, h2]
  · have h2 : l < k := by omega
    simp [h, h2]

/-- The east sentinel compares at or above every rectangle entry that
fits the Seed width, so the inclusive upper bound only constrains the
line number. -/
theorem rect_le_east (c : Char) (x0 W : Nat) (hW : 1 ≤ W) (hfit : x0 + W ≤ seedMax) (k l : Nat) :
    entryLeB (l, ⟨c, x0, x0 + W⟩) (k, ⟨c, seedMax - 1, seedMax⟩) = decide (l ≤ k) := by
  unfold entryLeB entryLtB
  rw [ltb_east_rect c x0 W hW hfit]
  by_cases h : l ≤ k
  · have h2 : ¬ (k < l) := by omega
    simp [h, h2]
  · have h2 : k < l := by omega
    simp [h, h2]

/-- A rectangle entry that fits the Seed width and avoids the sentinel
column compares strictly below the east sentinel, so the exclusive
upper bound also only constrains the line number. -/
theorem rect_lt_east (c : Char) (x0 W : Nat) (hW : 1 ≤ W)
    (hfit : x0 + W ≤ seedMax) (hx : x0 ≠ seedMax - 1) (k l : Nat) :
    entryLtB (l, ⟨c, x0, x0 + W⟩) (k, ⟨c, seedMax - 1, seedMax⟩) = decide (l ≤ k) := by
  unfold entryLtB
  rw [ltb_rect_east c x0 W hW hfit hx]
  by_cases h : l ≤ k
  · rcases Nat.lt_or_ge l k with h2 | h2
    · simp [h, h2]
    · have h3 : l = k := by omega
      simp [h, h3]
  · have h2 : ¬ (l < k) := by omega
    have h3 : l ≠ k := by omega
    simp [h, h2, h3]

/-- rectPlot as a map over the contiguous line range. -/
theorem rect_eq (c : Char) (x0 y0 W H : Nat) :
    rectPlot c x0 y0 W H =
      (List.range' y0 H).map (fun l => (l, ⟨c, x0, x0 + W⟩)) := by
  unfold rectPlot
  rw [List.range'_eq_map_range, List.map_map]
  rfl

/-- Inclusive range queries on the rectangle reduce to line intervals. -/
theorem rect_rangeIncl (c : Char) (x0 y0 W H : Nat) (hW : 1 ≤ W)
    (hfit : x0 + W ≤ seedMax) (k1 k2 : Nat) :
    (rectPlot c x0 y0 W H).rangeIncl (k1, ⟨c, 0, 1⟩) (k2, ⟨c, seedMax - 1, seedMax⟩) =
      (List.range' (max y0 k1) (min (y0 + H) (k2 + 1) - max y0 k1)).map
        (fun l => (l, ⟨c, x0, x0 + W⟩)) := by
  unfold Plot.rangeIncl
  rw [rect_eq, List.filter_map]
  have hcond :
      ((fun e => entryLeB (k1, ⟨c, 0, 1⟩) e &&
          entryLeB e (k2, ⟨c, seedMax - 1, seedMax⟩)) ∘
        (fun l => (l, (⟨c, x0, x0 + W⟩ : PlotSegment)))) =
      (fun l => decide (k1 ≤ l) && decide (l ≤ k2)) := by
    funext l
    show (entryLeB (k1, ⟨c, 0, 1⟩) (l, ⟨c, x0, x0 + W⟩) &&
        entryLeB (l, ⟨c, x0, x0 + W⟩) (k2, ⟨c, seedMax - 1, seedMax⟩)) =
      (decide (k1 ≤ l) && decide (l ≤ k2))
    rw [west_le_rect c x0 W hW, rect_le_east c x0 W hW hfit]
  rw [hcond, range'_filter_between]

/-- Half-open range queries on a non-sentinel rectangle also reduce to
line intervals. -/
theorem rect_rangeExcl (c : Char) (x0 y0 W H : Nat) (hW : 1 ≤ W)
    (hfit : x0 + W ≤ seedMax) (hx : x0 ≠ seedMax - 1) (k1 k2 : Nat) :
    (rectPlot c x0 y0 W H).rangeExcl (k1, ⟨c, 0, 1⟩) (k2, ⟨c, seedMax - 1, seedMax⟩) =
      (List.range' (max y0 k1) (min (y0 + H) (k2 + 1) - max y0 k1)).map
        (fun l => (l, ⟨c, x0, x0 + W⟩)) := by
  unfold Plot.rangeExcl
  rw [rect_eq, List.filter_map]
  have hcond :
      ((fun e => entryLeB (k1, ⟨c, 0, 1⟩) e &&
          entryLtB e (k2, ⟨c, seedMax - 1, seedMax⟩)) ∘
        (fun l => (l, (⟨c, x0, x0 + W⟩ : PlotSegment)))) =
      (fun l => decide (k1 ≤ l) && decide (l ≤ k2)) := by
    funext l
    show (entryLeB (k1, ⟨c, 0, 1⟩) (l, ⟨c, x0, x0 + W⟩) &&
        entryLtB (l, ⟨c, x0, x0 + W⟩) (k2, ⟨c, seedMax - 1, seedMax⟩)) =
      (decide (k1 ≤ l) && decide (l ≤ k2))
    rw [west_le_rect c x0 W hW, rect_lt_east c x0 W hW hfit hx]
  rw [hcond, range'_filter_between]

/-- A single-line inclusive query on the rectangle returns its row. -/
theorem rect_rangeIncl_row (c : Char) (x0 y0 W H : Nat) (hW : 1 ≤ W)
    (hfit : x0 + W ≤ seedMax) (k : Nat) :
    (rectPlot c x0 y0 W H).rangeIncl (k, ⟨c, 0, 1⟩) (k, ⟨c, seedMax - 1, seedMax⟩) =
      rectRow c x0 y0 W H k := by
  rw [rect_rangeIncl c x0 y0 W H hW hfit]
  unfold rectRow
  by_cases h : y0 ≤ k ∧ k < y0 + H
  · rw [if_pos h]
    have h1 : max y0 k = k := by omega
    have h2 : min (y0 + H) (k + 1) - k = 1 := by omega
    rw [h1, h2]
    rfl
  · rw [if_neg h]
    have h2 : min (y0 + H) (k + 1) - max y0 k = 0 := by omega
    rw [h2, List.range'_zero]
    rfl

/-- The initial above-window of edge_count_north_south is empty for a
rectangle whose lines stay clear of usize::MAX. -/
theorem rect_rangeIncl_above (c : Char) (x0 y0 W H : Nat) (hW : 1 ≤ W)
    (hfit : x0 + W ≤ seedMax) (hyH : y0 + H < usizeMax) :
    (rectPlot c x0 y0 W H).rangeIncl (usizeMax - 1, ⟨c, 0, 1⟩)
        (usizeMax, ⟨c, seedMax - 1, seedMax⟩) = [] := by
  rw [rect_rangeIncl c x0 y0 W H hW hfit]
  have h2 : min (y0 + H) (usizeMax + 1) - max y0 (usizeMax - 1) = 0 := by omega
  rw [h2, List.range'_zero]
  rfl

/-- The two-line window of sides_count on the rectangle is the
concatenation of the two rows. -/
theorem rect_rangeExcl_win (c : Char) (x0 y0 W H : Nat) (hW : 1 ≤ W)
    (hH : 1 ≤ H) (hfit : x0 + W ≤ seedMax) (hx : x0 ≠ seedMax - 1) (y : Nat) :
    (rectPlot c x0 y0 W H).rangeExcl (y, ⟨c, 0, 1⟩) (y + 1, ⟨c, seedMax - 1, seedMax⟩) =
      rectRow c x0 y0 W H y ++ rectRow c x0 y0 W H (y + 1) := by
  rw [rect_rangeExcl c x0 y0 W H hW hfit hx]
  unfold rectRow
  by_cases h1 : y0 ≤ y ∧ y < y0 + H
  · rw [if_pos h1]
    by_cases h2 : y + 1 < y0 + H
    · rw [if_pos ⟨by omega, h2⟩]
      have ha : max y0 y = y := by omega
      have hb : min (y0 + H) (y + 1 + 1) - y = 2 := by omega
      rw [ha, hb]
      rfl
    · rw [if_neg (by omega)]
      have ha : max y0 y = y := by omega
      have hb : min (y0 + H) (y + 1 + 1) - y = 1 := by omega
      rw [ha, hb]
      simp
  · rw [if_neg h1]
    by_cases h2 : y + 1 = y0
    · rw [if_pos (by omega)]
      have ha : max y0 y = y0 := by omega
      have hb : min (y0 + H) (y + 1 + 1) - y0 = 1 := by omega
      rw [ha, hb, List.nil_append]
      subst h2
      rfl
    · rw [if_neg (by omega)]
      have hb : min (y0 + H) (y + 1 + 1) - max y0 y = 0 := by omega
      rw [hb, List.range'_zero]
      rfl

/-- First entry of a nonempty rectangle. -/
theorem rect_head (c : Char) (x0 y0 W H : Nat) (hH : 1 ≤ H) :
    (rectPlot c x0 y0 W H).head? = some (y0, ⟨c, x0, x0 + W⟩) := by
  obtain ⟨m, rfl⟩ : ∃ m, H = m + 1 := ⟨H - 1, by omega⟩
  rw [rect_eq, List.range'_succ]
  rfl

/-- Last entry of a nonempty rectangle. -/
theorem rect_last (c : Char) (x0 y0 W H : Nat) (hH : 1 ≤ H) :
    (rectPlot c x0 y0 W H).getLast? = some (y0 + H - 1, ⟨c, x0, x0 + W⟩) := by
  obtain ⟨m, rfl⟩ : ∃ m, H = m + 1 := ⟨H - 1, by omega⟩
  unfold rectPlot
  rw [List.range_succ, List.map_append]
  have h : y0 + (m + 1) - 1 = y0 + m := by omega
  rw [h, List.map_singleton, List.getLast?_concat]

/-- A rectangle has one entry per row. -/
theorem rect_length (c : Char) (x0 y0 W H : Nat) :
    (rectPlot c x0 y0 W H).length = H := by
  unfold rectPlot
  rw [List.length_map, List.length_range]

/-- Horizontal overlap of the rectangle segment with one of its rows:
the full width inside the rectangle, nothing outside. -/
theorem cnt_row (c : Char) (x0 y0 W H : Nat) (hW : 1 ≤ W) (k : Nat) :
    PlotSegment.count_horizontal_edges ⟨c, x0, x0 + W⟩ (rectRow c x0 y0 W H k) =
      if y0 ≤ k ∧ k < y0 + H then W else 0 := by
  unfold rectRow
  by_cases h : y0 ≤ k ∧ k < y0 + H
  · rw [if_pos h, if_pos h]
    unfold PlotSegment.count_horizontal_edges
    have hov : PlotSegment.is_overlapping ⟨c, x0, x0 + W⟩ ⟨c, x0, x0 + W⟩ = true := by
      unfold PlotSegment.is_overlapping
      simp only [Bool.and_eq_true, decide_eq_true_eq]
      omega
    simp only [List.filter_cons, List.filter_nil, hov, if_true, List.map_cons,
      List.map_nil, List.sum_cons, List.sum_nil]
    unfold PlotSegment.get_overlap
    simp
  · rw [if_neg h, if_neg h]
    rfl

/-- One edge_count_north_south step on an in-range rectangle row. -/
theorem rect_edge_step (c : Char) (x0 y0 W H : Nat) (hW : 1 ≤ W)
    (hfit : x0 + W ≤ seedMax) (y : Nat) (hy : y0 ≤ y ∧ y < y0 + H)
    (A B : Plot) (s : Nat) :
    edgeBody (rectPlot c x0 y0 W H) ⟨c, 0, 1⟩ ⟨c, seedMax - 1, seedMax⟩
        (A, rectRow c x0 y0 W H y, B, s) y =
      (rectRow c x0 y0 W H y, B, rectRow c x0 y0 W H (y + 2),
       s + (2 * W - PlotSegment.count_horizontal_edges ⟨c, x0, x0 + W⟩ A
              - PlotSegment.count_horizontal_edges ⟨c, x0, x0 + W⟩ B)) := by
  unfold edgeBody
  rw [rect_rangeIncl_row c x0 y0 W H hW hfit]
  have hrow : rectRow c x0 y0 W H y = [(y, ⟨c, x0, x0 + W⟩)] := by
    unfold rectRow
    rw [if_pos hy]
  have hlen : PlotSegment.len ⟨c, x0, x0 + W⟩ = W := by
    show x0 + W - x0 = W
    omega
  rw [hrow]
  simp only [List.map_cons, List.map_nil, List.sum_cons, List.sum_nil, hlen,
    Nat.add_zero]

/-- The middle and final iterations of the edge fold on a rectangle:
every row past the first contributes nothing until the last row, which
contributes W. -/
theorem rect_edge_fold (c : Char) (x0 y0 W H : Nat) (hW : 1 ≤ W)
    (hfit : x0 + W ≤ seedMax) :
    ∀ (n y s : Nat), 1 ≤ n → y0 + 1 ≤ y → y + n = y0 + H →
      (List.range' y n).foldl
        (edgeBody (rectPlot c x0 y0 W H) ⟨c, 0, 1⟩ ⟨c, seedMax - 1, seedMax⟩)
        (rectRow c x0 y0 W H (y - 1), rectRow c x0 y0 W H y,
         rectRow c x0 y0 W H (y + 1), s) =
      (rectRow c x0 y0 W H (y0 + H - 1), rectRow c x0 y0 W H (y0 + H),
       rectRow c x0 y0 W H (y0 + H + 1), s + W) := by
  intro n
  induction n with
  | zero =>
      intro y s h1
      exact absurd h1 (by omega)
  | succ n ih =>
      intro y s h1 h2 h3
      rw [List.range'_succ, List.foldl_cons]
      have hy : y0 ≤ y ∧ y < y0 + H := by omega
      rw [rect_edge_step c x0 y0 W H hW hfit y hy]
      have hcntA : PlotSegment.count_horizontal_edges ⟨c, x0, x0 + W⟩
          (rectRow c x0 y0 W H (y - 1)) = W := by
        rw [cnt_row c x0 y0 W H hW]
        rw [if_pos (by omega)]
      rcases Nat.eq_zero_or_pos n with hn | hn
      · subst hn
        have hcntB : PlotSegment.count_horizontal_edges ⟨c, x0, x0 + W⟩
            (rectRow c x0 y0 W H (y + 1)) = 0 := by
          rw [cnt_row c x0 y0 W H hW]
          rw [if_neg (by omega)]
        rw [hcntA, hcntB, List.range'_zero, List.foldl_nil]
        have e1 : y = y0 + H - 1 := by omega
        have e2 : y + 1 = y0 + H := by omega
        have e3 : y + 2 = y0 + H + 1 := by omega
        rw [e1] at *
        rw [e2, e3]
        have e4 : s + (2 * W - W - 0) = s + W := by omega
        rw [e4]
      · have hcntB : PlotSegment.count_horizontal_edges ⟨c, x0, x0 + W⟩
            (rectRow c x0 y0 W H (y + 1)) = W := by
          rw [cnt_row c x0 y0 W H hW]
          rw [if_pos (by omega)]
        rw [hcntA, hcntB]
        have e4 : s + (2 * W - W - W) = s := by omega
        rw [e4]
        have := ih (y + 1) s (by omega) (by omega) (by omega)
        have e5 : y + 1 - 1 = y := by omega
        rw [e5] at this
        have e6 : y + 1 + 1 = y + 2 := by omega
        rw [e6] at this
        exact this

/-- Overlap count against an empty adjacent row is zero. -/
theorem cnt_nil (s : PlotSegment) :
    PlotSegment.count_horizontal_edges s [] = 0 := rfl

/-- The sentinel pair computed for a nonempty rectangle. -/
theorem rect_bounding (c : Char) (x0 y0 W H : Nat) (hH : 1 ≤ H) :
    (rectPlot c x0 y0 W H).get_plot_bounding_segs =
      some (⟨c, 0, 1⟩, ⟨c, seedMax - 1, seedMax⟩) := by
  unfold Plot.get_plot_bounding_segs
  rw [rect_head c x0 y0 W H hH]
  rfl

/-- edge_count_north_south of an isolated rectangle is twice its width. -/
theorem rect_edge_count (c : Char) (x0 y0 W H : Nat) (hW : 1 ≤ W) (hH : 1 ≤ H)
    (hfit : x0 + W ≤ seedMax) (hyH : y0 + H < usizeMax) :
    (rectPlot c x0 y0 W H).edge_count_north_south = some (2 * W) := by
  unfold Plot.edge_count_north_south
  rw [rect_bounding c x0 y0 W H hH, rect_head c x0 y0 W H hH,
    rect_last c x0 y0 W H hH]
  simp only [Option.bind_eq_bind, Option.some_bind]
  have hlen : y0 + H - 1 + 1 - y0 = H := by omega
  rw [hlen, rect_rangeIncl_above c x0 y0 W H hW hfit hyH,
    rect_rangeIncl_row c x0 y0 W H hW hfit y0,
    rect_rangeIncl_row c x0 y0 W H hW hfit (y0 + 1)]
  rcases Nat.lt_or_ge H 2 with h2 | h2
  · have hH1 : H = 1 := by omega
    subst hH1
    rw [List.range'_succ, List.range'_zero, List.foldl_cons, List.foldl_nil]
    rw [rect_edge_step c x0 y0 W 1 hW hfit y0 (by omega)]
    rw [cnt_nil]
    have hB : PlotSegment.count_horizontal_edges ⟨c, x0, x0 + W⟩
        (rectRow c x0 y0 W 1 (y0 + 1)) = 0 := by
      rw [cnt_row c x0 y0 W 1 hW, if_neg (by omega)]
    rw [hB]
    have e : 0 + (2 * W - 0 - 0) = 2 * W := by omega
    rw [e]
  · obtain ⟨m, rfl⟩ : ∃ m, H = m + 2 := ⟨H - 2, by omega⟩
    rw [List.range'_succ, List.foldl_cons]
    rw [rect_edge_step c x0 y0 W (m + 2) hW hfit y0 (by omega)]
    rw [cnt_nil]
    have hB : PlotSegment.count_horizontal_edges ⟨c, x0, x0 + W⟩
        (rectRow c x0 y0 W (m + 2) (y0 + 1)) = W := by
      rw [cnt_row c x0 y0 W (m + 2) hW, if_pos (by omega)]
    rw [hB]
    have e : 0 + (2 * W - 0 - W) = W := by omega
    rw [e]
    have hf := rect_edge_fold c x0 y0 W (m + 2) hW hfit (m + 1) (y0 + 1) W
      (by omega) (by omega) (by omega)
    have e5 : y0 + 1 - 1 = y0 := by omega
    have e6 : y0 + 1 + 1 = y0 + 2 := by omega
    rw [e5, e6] at hf
    rw [hf]
    have e7 : W + W = 2 * W := by omega
    rw [e7]

/-- XOR-ing the two projection keys of a single segment leaves both:
start*10 is even and end*10 - 1 is odd (also after the u16 wrap), so
they never cancel each other. -/
theorem corners_single (c : Char) (x0 W k : Nat) :
    ((([(k, (⟨c, x0, x0 + W⟩ : PlotSegment))] : Plot).flatMap cornerKeys).foldl
      xorKey []).length = 2 := by
  have hne : (10 * (x0 + W) + (seedBound - 1)) % seedBound ≠ (10 * x0) % seedBound := by
    unfold seedBound
    omega
  simp [cornerKeys, xorKey, hne]

/-- XOR-ing the keys of two vertically aligned copies of one segment
cancels everything. -/
theorem corners_pair (c : Char) (x0 W k k2 : Nat) :
    ((([(k, (⟨c, x0, x0 + W⟩ : PlotSegment)),
        (k2, (⟨c, x0, x0 + W⟩ : PlotSegment))] : Plot).flatMap cornerKeys).foldl
      xorKey []).length = 0 := by
  have hne : (10 * (x0 + W) + (seedBound - 1)) % seedBound ≠ (10 * x0) % seedBound := by
    unfold seedBound
    omega
  simp [cornerKeys, xorKey, hne, hne.symm, List.erase_cons]

/-- The middle and final iterations of the sides fold on a rectangle:
full two-row windows contribute no corners, and the last window keeps
only the bottom row. -/
theorem rect_sides_fold (c : Char) (x0 y0 W H : Nat) (hW : 1 ≤ W) (hH : 1 ≤ H)
    (hfit : x0 + W ≤ seedMax) (hx : x0 ≠ seedMax - 1) :
    ∀ (n y s : Nat), 1 ≤ n → y0 + 1 ≤ y → y + n = y0 + H →
      (List.range' y n).foldl
        (sidesBody (rectPlot c x0 y0 W H) ⟨c, 0, 1⟩ ⟨c, seedMax - 1, seedMax⟩)
        ([(y - 1, ⟨c, x0, x0 + W⟩), (y, ⟨c, x0, x0 + W⟩)], s) =
      ([(y0 + H - 1, ⟨c, x0, x0 + W⟩)], s) := by
  intro n
  induction n with
  | zero =>
      intro y s h1
      exact absurd h1 (by omega)
  | succ n ih =>
      intro y s h1 h2 h3
      rw [List.range'_succ, List.foldl_cons]
      simp only [sidesBody]
      rw [corners_pair, rect_rangeExcl_win c x0 y0 W H hW hH hfit hx y]
      have hrowy : rectRow c x0 y0 W H y = [(y, ⟨c, x0, x0 + W⟩)] := by
        unfold rectRow
        rw [if_pos (by omega)]
      rcases Nat.eq_zero_or_pos n with hn | hn
      · subst hn
        have hrowy1 : rectRow c x0 y0 W H (y + 1) = [] := by
          unfold rectRow
          rw [if_neg (by omega)]
        rw [hrowy, hrowy1, List.range'_zero, List.foldl_nil, List.append_nil]
        have e1 : y = y0 + H - 1 := by omega
        have e2 : s + 0 = s := by omega
        rw [e1, e2]
      · have hrowy1 : rectRow c x0 y0 W H (y + 1) = [(y + 1, ⟨c, x0, x0 + W⟩)] := by
          unfold rectRow
          rw [if_pos (by omega)]
        rw [hrowy, hrowy1]
        have e2 : s + 0 = s := by omega
        rw [e2]
        have hf := ih (y + 1) s (by omega) (by omega) (by omega)
        have e5 : y + 1 - 1 = y := by omega
        rw [e5] at hf
        exact hf

/-- sides_count of an isolated non-sentinel rectangle is 4. -/
theorem rect_sides_count (c : Char) (x0 y0 W H : Nat) (hW : 1 ≤ W) (hH : 1 ≤ H)
    (hfit : x0 + W ≤ seedMax) (hx : x0 ≠ seedMax - 1) :
    (rectPlot c x0 y0 W H).sides_count = some 4 := by
  unfold Plot.sides_count
  rw [rect_bounding c x0 y0 W H hH, rect_head c x0 y0 W H hH,
    rect_last c x0 y0 W H hH]
  simp only [Option.bind_eq_bind, Option.some_bind]
  have hlen : y0 + H - 1 + 1 - y0 = H := by omega
  rw [hlen]
  have hinit : (rectPlot c x0 y0 W H).rangeExcl (y0, ⟨c, 0, 1⟩)
      (y0, ⟨c, seedMax - 1, seedMax⟩) = [(y0, ⟨c, x0, x0 + W⟩)] := by
    rw [rect_rangeExcl c x0 y0 W H hW hfit hx]
    have h1 : max y0 y0 = y0 := by omega
    have h2 : min (y0 + H) (y0 + 1) - y0 = 1 := by omega
    rw [h1, h2]
    rfl
  rw [hinit]
  rcases Nat.lt_or_ge H 2 with h2 | h2
  · have hH1 : H = 1 := by omega
    subst hH1
    rw [List.range'_succ, List.range'_zero, List.foldl_cons, List.foldl_nil]
    simp only [sidesBody]
    rw [corners_single, rect_rangeExcl_win c x0 y0 W 1 hW hH hfit hx y0]
    have hrowy : rectRow c x0 y0 W 1 y0 = [(y0, ⟨c, x0, x0 + W⟩)] := by
      unfold rectRow
      rw [if_pos (by omega)]
    have hrowy1 : rectRow c x0 y0 W 1 (y0 + 1) = [] := by
      unfold rectRow
      rw [if_neg (by omega)]
    rw [hrowy, hrowy1, List.append_nil]
    rfl
  · obtain ⟨m, rfl⟩ : ∃ m, H = m + 2 := ⟨H - 2, by omega⟩
    rw [List.range'_succ, List.foldl_cons]
    simp only [sidesBody]
    rw [corners_single, rect_rangeExcl_win c x0 y0 W (m + 2) hW hH hfit hx y0]
    have hrowy : rectRow c x0 y0 W (m + 2) y0 = [(y0, ⟨c, x0, x0 + W⟩)] := by
      unfold rectRow
      rw [if_pos (by omega)]
    have hrowy1 : rectRow c x0 y0 W (m + 2) (y0 + 1) = [(y0 + 1, ⟨c, x0, x0 + W⟩)] := by
      unfold rectRow
      rw [if_pos (by omega)]
    rw [hrowy, hrowy1]
    simp only [List.singleton_append]
    have hf := rect_sides_fold c x0 y0 W (m + 2) hW hH hfit hx (m + 1) (y0 + 1)
      (0 + 2) (by omega) (by omega) (by omega)
    have e5 : y0 + 1 - 1 = y0 := by omega
    rw [e5] at hf
    rw [hf]
    rfl

/-- C4 (amended).  For every isolated axis-aligned rectangle of width
W and height H (W, H at least 1) whose coordinates fit the u16 Seed
(x0 + W at most 65535), whose column is not the sentinel column
Seed::MAX - 1 used as the range bound inside sides_count, and whose
lines stay clear of usize::MAX, perimeter_count returns 2*(W+H) and
sides_count returns 4, regardless of area.  (At the sentinel column,
which forces W = 1, sides_count instead returns 2.) -/
theorem C4_rectangle_geometry (c : Char) (x0 y0 W H : Nat)
    (hW : 1 ≤ W) (hH : 1 ≤ H) (hfit : x0 + W ≤ seedMax)
    (hx : x0 ≠ seedMax - 1) (hyH : y0 + H < usizeMax) :
    (rectPlot c x0 y0 W H).perimeter_count = some (2 * (W + H)) ∧
      (rectPlot c x0 y0 W H).sides_count = some 4 := by
  constructor
  · unfold Plot.perimeter_count
    rw [rect_edge_count c x0 y0 W H hW hH hfit hyH]
    simp only [Option.map_some']
    rw [rect_length c x0 y0 W H]
    have e : 2 * W + H * 2 = 2 * (W + H) := by omega
    rw [e]
  · exact rect_sides_count c x0 y0 W H hW hH hfit hx

/-- Witness for C4_rectangle_geometry on a 3 x 2 rectangle at (1, 0). -/
theorem C4_rectangle_geometry_witness :
    ((1 : Nat) ≤ 3 ∧ (1 : Nat) ≤ 2 ∧ (1 : Nat) + 3 ≤ seedMax ∧
        (1 : Nat) ≠ seedMax - 1 ∧ (0 : Nat) + 2 < usizeMax) ∧
      ((rectPlot 'A' 1 0 3 2).perimeter_count = some (2 * (3 + 2)) ∧
        (rectPlot 'A' 1 0 3 2).sides_count = some 4) :=
  ⟨by decide,
   C4_rectangle_geometry 'A' 1 0 3 2 (by decide) (by decide) (by decide)
     (by decide) (by decide)⟩

/-- Membership in an ordered set insertion. -/
theorem insertE_mem (p : Plot) (e a : Nat × PlotSegment) :
    a ∈ Plot.insertE p e ↔ a ∈ p ∨ a = e := by
  induction p with
  | nil => simp [Plot.insertE]
  | cons x xs ih =>
      unfold Plot.insertE
      split_ifs with h1 h2
      · simp only [List.mem_cons]
        tauto
      · subst h2
        simp only [List.mem_cons]
        tauto
      · simp only [List.mem_cons, ih]
        tauto

/-- Membership in a plot union built with extend. -/
theorem extend_mem (q : Plot) :
    ∀ (p : Plot) (a : Nat × PlotSegment),
      a ∈ Plot.extend p q ↔ a ∈ p ∨ a ∈ q := by
  induction q with
  | nil => intro p a; simp [Plot.extend]
  | cons x xs ih =>
      intro p a
      unfold Plot.extend at *
      rw [List.foldl_cons, ih, insertE_mem]
      simp only [List.mem_cons]
      tauto

/-- Keys after an entry insertion: the target id joins the key set. -/
theorem mem_keys_entryInsert (id : Nat) (e : Nat × PlotSegment) :
    ∀ (g : Garden) (k : Nat),
      k ∈ keysOf (g.entryInsert id e) ↔ k ∈ keysOf g ∨ k = id := by
  intro g
  induction g with
  | nil =>
      intro k
      simp [Garden.entryInsert, keysOf]
  | cons x xs ih =>
      intro k
      rcases x with ⟨k0, p0⟩
      unfold Garden.entryInsert
      split_ifs with h1 h2
      · simp only [keysOf, List.map_cons, List.mem_cons]
        tauto
      · subst h2
        simp only [keysOf, List.map_cons, List.mem_cons]
        tauto
      · simp only [keysOf, List.map_cons, List.mem_cons] at *
        rw [ih]
        tauto

/-- Keys after a plot merge: the target id joins the key set. -/
theorem mem_keys_extend (id : Nat) (q : Plot) :
    ∀ (g : Garden) (k : Nat),
      k ∈ keysOf (g.extend id q) ↔ k ∈ keysOf g ∨ k = id := by
  intro g
  induction g with
  | nil =>
      intro k
      simp [Garden.extend, keysOf]
  | cons x xs ih =>
      intro k
      rcases x with ⟨k0, p0⟩
      unfold Garden.extend
      split_ifs with h1 h2
      · simp only [keysOf, List.map_cons, List.mem_cons]
        tauto
      · subst h2
        simp only [keysOf, List.map_cons, List.mem_cons]
        tauto
      · simp only [keysOf, List.map_cons, List.mem_cons] at *
        rw [ih]
        tauto

/-- A successful removal: the removed binding was the first for that
key, and the remaining store keeps every other binding. -/
theorem remove_spec :
    ∀ (g : Garden) (id : Nat) (p : Plot) (g2 : Garden),
      g.remove id = some (p, g2) →
      g.find? id = some p ∧
        (∀ k, k ≠ id → Garden.find? g2 k = g.find? k) ∧
        (∀ k, k ∈ keysOf g2 → k ∈ keysOf g) ∧
        ((keysOf g).Pairwise (· < ·) → id ∉ keysOf g2) ∧
        ((keysOf g).Pairwise (· < ·) → (keysOf g2).Pairwise (· < ·)) := by
  intro g
  induction g with
  | nil => intro id p g2 h; simp [Garden.remove] at h
  | cons x xs ih =>
      intro id p g2 h
      rcases x with ⟨k0, p0⟩
      unfold Garden.remove at h
      by_cases h1 : id = k0
      · rw [if_pos h1] at h
        injection h with h
        injection h with h h2
        subst h h2 h1
        refine ⟨by simp [Garden.find?], ?_, ?_, ?_, ?_⟩
        · intro k hk
          simp only [Garden.find?]
          rw [if_neg hk]
        · intro k hk
          simp only [keysOf, List.map_cons, List.mem_cons]
          tauto
        · intro hnd
          simp only [keysOf, List.map_cons, List.pairwise_cons] at hnd
          intro hmem
          exact absurd rfl (Nat.ne_of_lt (hnd.1 id hmem)).symm
        · intro hs
          simp only [keysOf, List.map_cons, List.pairwise_cons] at hs
          exact hs.2
      · rw [if_neg h1] at h
        cases hrec : Garden.remove xs id with
        | none => rw [hrec] at h; simp at h
        | some r =>
            rw [hrec] at h
            simp only [Option.map_some'] at h
            injection h with h
            rcases r with ⟨p1, g1⟩
            injection h with ha hb
            subst ha
            subst hb
            obtain ⟨f1, f2, f3, f4, f5⟩ := ih id p1 g1 hrec
            refine ⟨?_, ?_, ?_, ?_, ?_⟩
            · simp only [Garden.find?]
              rw [if_neg h1]
              exact f1
            · intro k hk
              simp only [Garden.find?]
              by_cases hkk : k = k0
              · rw [if_pos hkk, if_pos hkk]
              · rw [if_neg hkk, if_neg hkk]
                exact f2 k hk
            · intro k hk
              simp only [keysOf, List.map_cons, List.mem_cons] at *
              rcases hk with hk | hk
              · exact Or.inl hk
              · exact Or.inr (f3 k hk)
            · intro hs
              simp only [keysOf, List.map_cons, List.pairwise_cons] at hs ⊢
              intro hmem
              rcases List.mem_cons.mp hmem with hc | hc
              · exact h1 hc
              · exact f4 hs.2 hc
            · intro hs
              simp only [keysOf, List.map_cons, List.pairwise_cons] at hs ⊢
              exact ⟨fun b hb => hs.1 b (f3 b hb), f5 hs.2⟩

/-- A key that is absent is not found. -/
theorem find?_eq_none :
    ∀ (g : Garden) (k : Nat), k ∉ keysOf g → g.find? k = none := by
  intro g
  induction g with
  | nil => intro k _; rfl
  | cons x xs ih =>
      intro k hk
      rcases x with ⟨k0, p0⟩
      simp only [keysOf, List.map_cons, List.mem_cons] at hk
      push_neg at hk
      simp only [Garden.find?]
      rw [if_neg hk.1]
      exact ih k hk.2

/-- Merging under one id leaves every other binding unchanged. -/
theorem find?_extend_other :
    ∀ (g : Garden) (id : Nat) (q : Plot) (k : Nat), k ≠ id →
      (g.extend id q).find? k = g.find? k := by
  intro g
  induction g with
  | nil =>
      intro id q k hk
      simp only [Garden.extend, Garden.find?]
      rw [if_neg hk]
  | cons x xs ih =>
      intro id q k hk
      rcases x with ⟨k0, p0⟩
      unfold Garden.extend
      split_ifs with h1 h2
      · simp only [Garden.find?]
        rw [if_neg hk]
      · have hkk : k ≠ k0 := by omega
        simp only [Garden.find?]
        rw [if_neg hkk, if_neg hkk]
      · simp only [Garden.find?]
        by_cases hkk : k = k0
        · rw [if_pos hkk, if_pos hkk]
        · rw [if_neg hkk, if_neg hkk]
          exact ih id q k hk

/-- Merging under an id on a key-sorted store extends exactly that
binding (or creates it from the empty plot). -/
theorem find?_extend_self :
    ∀ (g : Garden) (id : Nat) (q : Plot),
      (keysOf g).Pairwise (· < ·) →
      (g.extend id q).find? id = some (Plot.extend ((g.find? id).getD []) q) := by
  intro g
  induction g with
  | nil =>
      intro id q _
      simp [Garden.extend, Garden.find?]
  | cons x xs ih =>
      intro id q hs
      rcases x with ⟨k0, p0⟩
      simp only [keysOf, List.map_cons, List.pairwise_cons] at hs
      unfold Garden.extend
      split_ifs with h1 h2
      · have hne : id ≠ k0 := by omega
        have habs : id ∉ keysOf xs := by
          intro hmem
          have := hs.1 id hmem
          omega
        simp [Garden.find?, hne, find?_eq_none xs id habs]
      · subst h2
        simp [Garden.find?]
      · simp only [Garden.find?]
        rw [if_neg h2, if_neg h2]
        exact ih id q hs.2

/-- entryInsert keeps the key list strictly sorted. -/
theorem keys_sorted_entryInsert :
    ∀ (g : Garden) (id : Nat) (e : Nat × PlotSegment),
      (keysOf g).Pairwise (· < ·) →
      (keysOf (g.entryInsert id e)).Pairwise (· < ·) := by
  intro g
  induction g with
  | nil => intro id e _; simp [Garden.entryInsert, keysOf]
  | cons x xs ih =>
      intro id e hs
      rcases x with ⟨k0, p0⟩
      simp only [keysOf, List.map_cons, List.pairwise_cons] at hs
      unfold Garden.entryInsert
      split_ifs with h1 h2
      · simp only [keysOf, List.map_cons, List.pairwise_cons]
        refine ⟨?_, hs.1, hs.2⟩
        intro b hb
        rcases List.mem_cons.mp hb with hb | hb
        · omega
        · have := hs.1 b hb
          omega
      · subst h2
        simp only [keysOf, List.map_cons, List.pairwise_cons]
        exact hs
      · simp only [keysOf, List.map_cons, List.pairwise_cons]
        constructor
        · intro b hb
          rcases (mem_keys_entryInsert id e xs b).mp hb with hb | hb
          · exact hs.1 b hb
          · omega
        · exact ih id e hs.2

/-- extend keeps the key list strictly sorted. -/
theorem keys_sorted_extend :
    ∀ (g : Garden) (id : Nat) (q : Plot),
      (keysOf g).Pairwise (· < ·) →
      (keysOf (g.extend id q)).Pairwise (· < ·) := by
  intro g
  induction g with
  | nil => intro id q _; simp [Garden.extend, keysOf]
  | cons x xs ih =>
      intro id q hs
      rcases x with ⟨k0, p0⟩
      simp only [keysOf, List.map_cons, List.pairwise_cons] at hs
      unfold Garden.extend
      split_ifs with h1 h2
      · simp only [keysOf, List.map_cons, List.pairwise_cons]
        refine ⟨?_, hs.1, hs.2⟩
        intro b hb
        rcases List.mem_cons.mp hb with hb | hb
        · omega
        · have := hs.1 b hb
          omega
      · subst h2
        simp only [keysOf, List.map_cons, List.pairwise_cons]
        exact hs
      · simp only [keysOf, List.map_cons, List.pairwise_cons]
        constructor
        · intro b hb
          rcases (mem_keys_extend id q xs b).mp hb with hb | hb
          · exact hs.1 b hb
          · omega
        · exact ih id q hs.2

/-- Setting a list element to the value it already holds is a no-op. -/
theorem set_getElem?_self {α : Type} :
    ∀ (l : List α) (i : Nat) (x : α), l[i]? = some x → l.set i x = l := by
  intro l
  induction l with
  | nil => intro i x h; simp at h
  | cons a t ih =>
      intro i x h
      cases i with
      | zero =>
          simp only [List.getElem?_cons_zero, Option.some_inj] at h
          subst h
          rfl
      | succ n =>
          simp only [List.getElem?_cons_succ] at h
          simp only [List.set_cons_succ]
          rw [ih n x h]

/-- Flagging an entry changes neither its segment nor its id. -/
theorem flag_matched_proj (gl : GLine) (i : Nat) :
    (gl.flag_matched i).map (fun e => (e.1, e.2.1)) =
      gl.map (fun e => (e.1, e.2.1)) := by
  unfold GLine.flag_matched
  cases hget : gl.get? i with
  | none => rfl
  | some e =>
      rcases e with ⟨s, id, b⟩
      rw [List.map_set]
      apply set_getElem?_self
      rw [List.getElem?_map, ← List.get?_eq_getElem?, hget]
      rfl

/-- The takeWhile prefix agrees with the original list positionally. -/
theorem takeWhile_getElem? {α : Type} (q : α → Bool) :
    ∀ (l : List α) (i : Nat) (x : α),
      (l.takeWhile q)[i]? = some x → l[i]? = some x := by
  intro l
  induction l with
  | nil => intro i x h; simp [List.takeWhile] at h
  | cons a t ih =>
      intro i x h
      rw [List.takeWhile_cons] at h
      by_cases hq : q a = true
      · rw [if_pos hq] at h
        cases i with
        | zero => simpa using h
        | succ n =>
            simp only [List.getElem?_cons_succ] at h ⊢
            exact ih n x h
      · rw [if_neg hq] at h
        simp at h

/-- Every (index, id) pair reported by overlaps points at a scanline
entry that holds exactly that id. -/
theorem overlaps_mem_spec (gl : GLine) (segment : PlotSegment) :
    ∀ m ∈ gl.overlaps segment, ∃ s b, gl[m.1]? = some (s, m.2, b) := by
  intro m hm
  unfold GLine.overlaps at hm
  rcases List.mem_filterMap.mp hm with ⟨p, hpmem, hpeq⟩
  by_cases hc : p.2.1.plant = segment.plant ∧ p.2.1.is_overlapping segment
  · rw [if_pos hc] at hpeq
    injection hpeq with hpeq
    rcases p with ⟨i, e⟩
    rcases e with ⟨s, id, b⟩
    have hm1 : m = (i, id) := hpeq.symm
    subst hm1
    refine ⟨s, b, ?_⟩
    exact takeWhile_getElem? _ gl i (s, id, b)
      (List.mk_mem_enum_iff_getElem?.mp hpmem)
  · rw [if_neg hc] at hpeq
    exact absurd hpeq (by simp)

/-- A found key is present. -/
theorem find?_mem_keys :
    ∀ (g : Garden) (k : Nat) (p : Plot), g.find? k = some p → k ∈ keysOf g := by
  intro g
  induction g with
  | nil => intro k p h; simp [Garden.find?] at h
  | cons x xs ih =>
      intro k p h
      rcases x with ⟨k0, p0⟩
      simp only [Garden.find?] at h
      by_cases hk : k = k0
      · simp [keysOf, hk]
      · rw [if_neg hk] at h
        simp only [keysOf, List.map_cons, List.mem_cons]
        exact Or.inr (ih k p h)

/-- An id read through a position is stable under flag changes. -/
theorem proj_preserves_id (gl gl2 : GLine)
    (hproj : gl2.map (fun e => (e.1, e.2.1)) = gl.map (fun e => (e.1, e.2.1)))
    (i id : Nat) (s : PlotSegment) (b : Bool) (h : gl[i]? = some (s, id, b)) :
    ∃ s2 b2, gl2[i]? = some (s2, id, b2) := by
  have h1 : (gl2.map (fun e => (e.1, e.2.1)))[i]? =
      (gl.map (fun e => (e.1, e.2.1)))[i]? := by rw [hproj]
  rw [List.getElem?_map, List.getElem?_map, h] at h1
  cases hg : gl2[i]? with
  | none => rw [hg] at h1; simp at h1
  | some e =>
      rw [hg] at h1
      simp only [Option.map_some'] at h1
      injection h1 with h1
      refine ⟨e.1, e.2.2, ?_⟩
      rcases e with ⟨es, ei, eb⟩
      simp only [Prod.mk.injEq] at h1
      simp [h1.2]

/-- What one pass of the process_segment fold does: the master id is
carried through unchanged, the deprecated list collects exactly the
matched ids that differ from the master (in order, duplicates kept),
the scanline keeps its segments and ids (only matched flags change),
and the store gains keys only among the matched ids. -/
theorem segBody_fold_spec (line : Nat) :
    ∀ (l : List (Nat × Nat)) (g : Garden) (gl : GLine) (mid : Nat)
      (d0 : Option (List Nat)),
      (∀ m ∈ l, ∃ s b, gl[m.1]? = some (s, m.2, b)) →
      (l.foldl (segBody line) (g, gl, mid, d0)).2.2.1 = mid ∧
      (l.foldl (segBody line) (g, gl, mid, d0)).2.2.2.getD [] =
        d0.getD [] ++ (l.map Prod.snd).filter (fun i => decide (i ≠ mid)) ∧
      (l.foldl (segBody line) (g, gl, mid, d0)).2.1.map (fun e => (e.1, e.2.1)) =
        gl.map (fun e => (e.1, e.2.1)) ∧
      (∀ k, k ∈ keysOf (l.foldl (segBody line) (g, gl, mid, d0)).1 ↔
        k ∈ keysOf g ∨ (∃ m ∈ l, m.2 = k)) ∧
      ((keysOf g).Pairwise (· < ·) →
        (keysOf (l.foldl (segBody line) (g, gl, mid, d0)).1).Pairwise (· < ·)) := by
  intro l
  induction l with
  | nil =>
      intro g gl mid d0 _
      refine ⟨rfl, by simp, rfl, ?_, fun h => h⟩
      intro k
      simp
  | cons m rest ih =>
      intro g gl mid d0 hh
      rw [List.foldl_cons]
      obtain ⟨s, b, hget⟩ := hh m (List.mem_cons_self m rest)
      have hproj := flag_matched_proj gl m.1
      obtain ⟨s2, b2, hget2⟩ :=
        proj_preserves_id gl (gl.flag_matched m.1) hproj m.1 m.2 s b hget
      have hbody : segBody line (g, gl, mid, d0) m =
          (g.entryInsert m.2 (line - 1, s2), gl.flag_matched m.1, mid,
            if m.2 ≠ mid then some (d0.getD [] ++ [m.2]) else d0) := by
        simp only [segBody]
        rw [List.getD_eq_getElem?_getD, hget2]
        rfl
      rw [hbody]
      have hhrest : ∀ m2 ∈ rest, ∃ s3 b3,
          (gl.flag_matched m.1)[m2.1]? = some (s3, m2.2, b3) := by
        intro m2 hm2
        obtain ⟨s3, b3, hg3⟩ := hh m2 (List.mem_cons_of_mem m hm2)
        exact proj_preserves_id gl (gl.flag_matched m.1) hproj m2.1 m2.2 s3 b3 hg3
      obtain ⟨ih1, ih2, ih3, ih4, ih5⟩ := ih (g.entryInsert m.2 (line - 1, s2))
        (gl.flag_matched m.1) mid
        (if m.2 ≠ mid then some (d0.getD [] ++ [m.2]) else d0) hhrest
      refine ⟨ih1, ?_, ?_, ?_, ?_⟩
      · rw [ih2]
        by_cases hm : m.2 ≠ mid
        · rw [if_pos hm]
          simp only [List.map_cons, List.filter_cons, Option.getD_some]
          rw [if_pos (by simpa using hm)]
          simp
        · rw [if_neg hm]
          simp only [List.map_cons, List.filter_cons]
          push_neg at hm
          rw [if_neg (by simp [hm])]
      · rw [ih3, hproj]
      · intro k
        rw [ih4, mem_keys_entryInsert]
        constructor
        · rintro (⟨hk | hk⟩ | ⟨m2, hm2, hk⟩)
          · exact Or.inl hk
          · exact Or.inr ⟨m, List.mem_cons_self m rest, hk.symm⟩
          · exact Or.inr ⟨m2, List.mem_cons_of_mem m hm2, hk⟩
        · rintro (hk | ⟨m2, hm2, hk⟩)
          · exact Or.inl (Or.inl hk)
          · rcases List.mem_cons.mp hm2 with hm2 | hm2
            · subst hm2
              exact Or.inl (Or.inr hk.symm)
            · exact Or.inr ⟨m2, hm2, hk⟩
      · intro hWF
        exact ih5 (keys_sorted_entryInsert g m.2 (line - 1, s2) hWF)

/-- One deprecation step on a key-sorted store: the deprecated id
vanishes, its rows (and the previous rows of the master) end up under
the master, keys stay sorted, and no key other than the master appears. -/
theorem depr_step_absorbs (master : Nat) (st : Garden × GLine × GLine)
    (d : Nat) (out : Garden × GLine × GLine)
    (hWF : (keysOf st.1).Pairwise (· < ·)) (hd : d ≠ master)
    (hstep : depr_step master st d = some out) :
    (keysOf out.1).Pairwise (· < ·) ∧
      d ∉ keysOf out.1 ∧
      d ∈ keysOf st.1 ∧
      (∀ e ∈ (st.1.find? d).getD [], e ∈ (out.1.find? master).getD []) ∧
      (∀ e ∈ (st.1.find? master).getD [], e ∈ (out.1.find? master).getD []) ∧
      (∀ k, k ∈ keysOf out.1 → k ∈ keysOf st.1 ∨ k = master) ∧
      (∀ k, k ≠ d → k ≠ master → out.1.find? k = st.1.find? k) := by
  unfold depr_step at hstep
  cases hrem : st.1.remove d with
  | none =>
      rw [hrem] at hstep
      simp at hstep
  | some r =>
      rw [hrem] at hstep
      rcases r with ⟨p, g1⟩
      simp only [Option.bind_eq_bind, Option.some_bind] at hstep
      obtain ⟨f1, f2, f3, f4, f5⟩ := remove_spec st.1 d p g1 hrem
      have hout1 : out.1 = g1.extend master p := by
        injection hstep with hstep
        rw [← hstep]
      have hWF1 := f5 hWF
      have hself := find?_extend_self g1 master p hWF1
      refine ⟨?_, ?_, ?_, ?_, ?_, ?_, ?_⟩
      · rw [hout1]
        exact keys_sorted_extend g1 master p hWF1
      · rw [hout1]
        intro hmem
        rcases (mem_keys_extend master p g1 d).mp hmem with hm | hm
        · exact f4 hWF hm
        · exact hd hm
      · exact find?_mem_keys st.1 d p f1
      · intro e he
        rw [f1] at he
        simp only [Option.getD_some] at he
        rw [hout1, hself]
        simp only [Option.getD_some]
        exact (extend_mem p _ e).mpr (Or.inr he)
      · intro e he
        rw [hout1, hself]
        simp only [Option.getD_some]
        rw [← f2 master (fun h => hd h.symm)] at he
        exact (extend_mem p _ e).mpr (Or.inl he)
      · intro k hk
        rw [hout1] at hk
        rcases (mem_keys_extend master p g1 k).mp hk with hm | hm
        · exact Or.inl (f3 k hm)
        · exact Or.inr hm
      · intro k hkd hkm
        rw [hout1, find?_extend_other g1 master p k hkm]
        exact f2 k hkd

/-- The whole deprecation loop on a key-sorted store: every deprecated
id disappears from the store and its rows are absorbed by the master. -/
theorem depr_loop_spec (master : Nat) :
    ∀ (ids : List Nat) (st : Garden × GLine × GLine) (out : Garden × GLine × GLine),
      (keysOf st.1).Pairwise (· < ·) →
      (∀ d ∈ ids, d ≠ master) →
      ids.foldlM (depr_step master) st = some out →
      (keysOf out.1).Pairwise (· < ·) ∧
      (∀ k, k ∈ keysOf out.1 → k ∈ keysOf st.1 ∨ k = master) ∧
      (∀ e ∈ (st.1.find? master).getD [], e ∈ (out.1.find? master).getD []) ∧
      (∀ d2 ∈ ids, d2 ∈ keysOf st.1) ∧
      (∀ d2 ∈ ids, d2 ∉ keysOf out.1 ∧
        ∀ e ∈ (st.1.find? d2).getD [], e ∈ (out.1.find? master).getD []) := by
  intro ids
  induction ids with
  | nil =>
      intro st out hWF _ h
      have hout : out = st := by
        simpa using h.symm
      subst hout
      exact ⟨hWF, fun k hk => Or.inl hk, fun e he => he, by simp, by simp⟩
  | cons d rest ih =>
      intro st out hWF hne h
      rw [List.foldlM_cons] at h
      cases hstep : depr_step master st d with
      | none => rw [hstep] at h; simp at h
      | some mid =>
          rw [hstep] at h
          simp only [Option.bind_eq_bind, Option.some_bind] at h
          have hd := hne d (List.mem_cons_self d rest)
          obtain ⟨a1, a2, a3, a4, a5, a6, a7⟩ :=
            depr_step_absorbs master st d mid hWF hd hstep
          obtain ⟨b1, b2, b3, b5, b4⟩ := ih mid out a1
            (fun d2 hd2 => hne d2 (List.mem_cons_of_mem d hd2)) h
          have hrest_st : ∀ d2 ∈ rest, d2 ∈ keysOf st.1 ∧ d2 ≠ d := by
            intro d2 hd2
            have hmid := b5 d2 hd2
            have hne2 : d2 ≠ d := by
              intro hc
              subst hc
              exact a2 hmid
            rcases a6 d2 hmid with hk | hk
            · exact ⟨hk, hne2⟩
            · exact absurd hk (hne d2 (List.mem_cons_of_mem d hd2))
          refine ⟨b1, ?_, ?_, ?_, ?_⟩
          · intro k hk
            rcases b2 k hk with hk2 | hk2
            · rcases a6 k hk2 with hk3 | hk3
              · exact Or.inl hk3
              · exact Or.inr hk3
            · exact Or.inr hk2
          · intro e he
            exact b3 e (a5 e he)
          · intro d2 hd2
            rcases List.mem_cons.mp hd2 with hd2 | hd2
            · subst hd2
              exact a3
            · exact (hrest_st d2 hd2).1
          · intro d2 hd2
            rcases List.mem_cons.mp hd2 with hd2 | hd2
            · subst hd2
              constructor
              · intro hmem
                rcases b2 d2 hmem with hk2 | hk2
                · exact a2 hk2
                · exact hd hk2
              · intro e he
                exact b3 e (a4 e he)
            · obtain ⟨c1, c2⟩ := b4 d2 hd2
              obtain ⟨hst2, hne2⟩ := hrest_st d2 hd2
              refine ⟨c1, ?_⟩
              intro e he
              have hd2m := hne d2 (List.mem_cons_of_mem d hd2)
              rw [← a7 d2 hne2 hd2m] at he
              exact c2 e he

/-- process_segment on a segment with at least one match: the resolved
id is the minimum matched id, the deprecated list holds exactly the
other matched ids, new store keys come only from matched ids, key
sortedness is preserved, the id counter is untouched, and the scanline
keeps its (segment, id) projection. -/
theorem process_segment_spec (segment : PlotSegment) (plots : Garden)
    (g_line : GLine) (line counter : Nat)
    (hne : g_line.overlaps segment ≠ []) :
    ((process_segment segment plots g_line line counter).2.2.1 ∈
        (g_line.overlaps segment).map Prod.snd ∧
      ∀ m ∈ g_line.overlaps segment,
        (process_segment segment plots g_line line counter).2.2.1 ≤ m.2) ∧
    (∀ i, i ∈ (process_segment segment plots g_line line counter).2.2.2.1.getD [] ↔
      (i ∈ (g_line.overlaps segment).map Prod.snd ∧
        i ≠ (process_segment segment plots g_line line counter).2.2.1)) ∧
    (∀ k, k ∈ keysOf (process_segment segment plots g_line line counter).1 →
      k ∈ keysOf plots ∨ k ∈ (g_line.overlaps segment).map Prod.snd) ∧
    ((keysOf plots).Pairwise (· < ·) →
      (keysOf (process_segment segment plots g_line line counter).1).Pairwise (· < ·)) ∧
    (process_segment segment plots g_line line counter).2.2.2.2 = counter ∧
    (process_segment segment plots g_line line counter).2.1.map
        (fun e => (e.1, e.2.1)) =
      g_line.map (fun e => (e.1, e.2.1)) := by
  have hcond : ¬ ((g_line.overlaps segment).isEmpty = true) := by
    rw [List.isEmpty_iff]
    exact hne
  have hperm := List.perm_insertionSort (fun a b : Nat × Nat => a.2 ≤ b.2)
    (g_line.overlaps segment)
  haveI : IsTotal (Nat × Nat) (fun a b : Nat × Nat => a.2 ≤ b.2) :=
    ⟨fun a b => Nat.le_total a.2 b.2⟩
  haveI : IsTrans (Nat × Nat) (fun a b : Nat × Nat => a.2 ≤ b.2) :=
    ⟨fun a b c => Nat.le_trans⟩
  have hsorted := List.sorted_insertionSort (fun a b : Nat × Nat => a.2 ≤ b.2)
    (g_line.overlaps segment)
  cases hseq : List.insertionSort (fun a b : Nat × Nat => a.2 ≤ b.2)
      (g_line.overlaps segment) with
  | nil =>
      rw [hseq] at hperm
      exact absurd hperm.symm.eq_nil hne
  | cons m0 rest =>
      rw [hseq] at hperm hsorted
      have hm0 : m0 ∈ g_line.overlaps segment :=
        hperm.mem_iff.mp (List.mem_cons_self m0 rest)
      obtain ⟨s0, b0, hg0⟩ := overlaps_mem_spec g_line segment m0 hm0
      have hmaster : (g_line.getD (((m0 :: rest).headD (0, 0)).1) dfltEntry).2.1 = m0.2 := by
        simp only [List.headD_cons]
        rw [List.getD_eq_getElem?_getD, hg0]
        rfl
      have hfold := segBody_fold_spec line (m0 :: rest) plots g_line
        ((g_line.getD (((m0 :: rest).headD (0, 0)).1) dfltEntry).2.1) none
        (by
          intro m hm
          exact overlaps_mem_spec g_line segment m (hperm.mem_iff.mp hm))
      obtain ⟨hf1, hf2, hf3, hf4, hf5⟩ := hfold
      have hr : process_segment segment plots g_line line counter =
          (((m0 :: rest).foldl (segBody line)
              (plots, g_line,
                (g_line.getD (((m0 :: rest).headD (0, 0)).1) dfltEntry).2.1, none)).1,
            ((m0 :: rest).foldl (segBody line)
              (plots, g_line,
                (g_line.getD (((m0 :: rest).headD (0, 0)).1) dfltEntry).2.1, none)).2.1,
            ((m0 :: rest).foldl (segBody line)
              (plots, g_line,
                (g_line.getD (((m0 :: rest).headD (0, 0)).1) dfltEntry).2.1, none)).2.2.1,
            ((m0 :: rest).foldl (segBody line)
              (plots, g_line,
                (g_line.getD (((m0 :: rest).headD (0, 0)).1) dfltEntry).2.1, none)).2.2.2,
            counter) := by
        simp only [process_segment]
        rw [if_neg hcond, hseq]
      rw [hr]
      rw [hmaster] at hf1 hf2 hf3 hf4 hf5 ⊢
      rw [hf1, hf2]
      refine ⟨⟨?_, ?_⟩, ?_, ?_, ?_, rfl, hf3⟩
      · exact List.mem_map_of_mem Prod.snd hm0
      · intro m hm
        rcases List.mem_cons.mp (hperm.mem_iff.mpr hm) with hm2 | hm2
        · rw [hm2]
        · exact List.rel_of_sorted_cons hsorted m hm2
      · intro i
        simp only [Option.getD_none, List.nil_append, List.mem_filter,
          decide_eq_true_eq]
        constructor
        · rintro ⟨hi1, hi2⟩
          refine ⟨?_, hi2⟩
          rcases List.mem_map.mp hi1 with ⟨m, hm, hmi⟩
          exact List.mem_map.mpr ⟨m, hperm.mem_iff.mp hm, hmi⟩
        · rintro ⟨hi1, hi2⟩
          refine ⟨?_, hi2⟩
          rcases List.mem_map.mp hi1 with ⟨m, hm, hmi⟩
          exact List.mem_map.mpr ⟨m, hperm.mem_iff.mpr hm, hmi⟩
      · intro k hk
        rcases (hf4 k).mp hk with hk2 | ⟨m, hm, hmk⟩
        · exact Or.inl hk2
        · exact Or.inr (List.mem_map.mpr ⟨m, hperm.mem_iff.mp hm, hmk⟩)
      · exact hf5

/-- C2 (counterexample).  The claim covers main.rs parse_garden as well
as parser.rs process_segment, and main.rs picks the master as the id of
the first matched index - cur_aseg[matched[0]] at line 80, in scan
order, with no sort - which need not be the minimum matched id.  On the
grid CCCAA / ABBAA / AAAAA the active map after two rows is
[(A0..1, 2), (B1..3, 3), (A3..5, 1)] (the fresh left A got id 2, the
older right A kept id 1); the third row's bridging segment A0..5
matches ids [2, 1], main.rs resolves it to 2, and its merge loop
removes the minimum id 1 and extends region 2 with its rows - the
minimum id is absorbed instead of absorbing, refuting both conjuncts of
the claim for this source.  parser.rs process_segment on the very same
state resolves to 1, so the two cited implementations disagree. -/
theorem C2_main_master_not_min_counterexample :
    c2St = some (c2G2, c2Cur, 4) ∧
    (mainMatched c2Cur ⟨'A', 0, 5⟩).map
      (fun i => (c2Cur.getD i dfltEntry).2.1) = [2, 1] ∧
    (c2Cur.getD ((mainMatched c2Cur ⟨'A', 0, 5⟩).headD 0) dfltEntry).2.1 = 2 ∧
    (process_segment ⟨'A', 0, 5⟩ c2G2 c2Cur 2 4).2.2.1 = 1 ∧
    parse_garden c2Grid = some c2Final ∧
    (parse_garden c2Grid).map keysOf = some [0, 2, 3] :=
  ⟨rfl, rfl, rfl, rfl, rfl, rfl⟩

/-- C2 (amended).  For parser.rs process_segment, which sorts the
matched entries by id before reading the master, the claim does hold:
when a new segment overlaps one or more same-plant entries of the
active-line table, the id process_segment resolves to is the minimum of
the matched ids; the deprecated list holds exactly the other matched
ids; and whenever the enclosing process_line step completes, every
deprecated id is gone from the store and its rows (as recorded after
process_segment) have been absorbed into the master id.  (main.rs
parse_garden instead takes the first matched id in scan order, where
the claim fails; see the counterexample above.) -/
theorem C2_master_min_absorbs (segment : PlotSegment) (plots : Garden)
    (g_line : GLine) (line counter : Nat)
    (hne : g_line.overlaps segment ≠ [])
    (hWF : (keysOf plots).Pairwise (· < ·)) :
    ((process_segment segment plots g_line line counter).2.2.1 ∈
        (g_line.overlaps segment).map Prod.snd ∧
      ∀ m ∈ g_line.overlaps segment,
        (process_segment segment plots g_line line counter).2.2.1 ≤ m.2) ∧
    (∀ i, i ∈ (process_segment segment plots g_line line counter).2.2.2.1.getD [] ↔
      (i ∈ (g_line.overlaps segment).map Prod.snd ∧
        i ≠ (process_segment segment plots g_line line counter).2.2.1)) ∧
    (∀ (ngl : GLine) (st2 : Garden × GLine × GLine × Nat),
      process_line_step line (plots, g_line, ngl, counter) segment = some st2 →
      ∀ d ∈ (process_segment segment plots g_line line counter).2.2.2.1.getD [],
        d ∉ keysOf st2.1 ∧
        ∀ e ∈ ((process_segment segment plots g_line line counter).1.find? d).getD [],
          e ∈ (st2.1.find? (process_segment segment plots g_line line counter).2.2.1).getD []) := by
  obtain ⟨h1, h2, h3, h4, h5, -⟩ :=
    process_segment_spec segment plots g_line line counter hne
  refine ⟨h1, h2, ?_⟩
  intro ngl st2 hstep d hd
  simp only [process_line_step] at hstep
  cases hdep : (process_segment segment plots g_line line counter).2.2.2.1 with
  | none =>
      rw [hdep] at hd
      simp at hd
  | some ids =>
      rw [hdep] at hd
      simp only [Option.getD_some] at hd
      simp only [hdep] at hstep
      cases hloop : ids.foldlM
          (depr_step (process_segment segment plots g_line line counter).2.2.1)
          ((process_segment segment plots g_line line counter).1,
           (process_segment segment plots g_line line counter).2.1,
           GLine.push ngl segment
             (process_segment segment plots g_line line counter).2.2.1) with
      | none =>
          rw [hloop] at hstep
          simp at hstep
      | some s =>
          rw [hloop] at hstep
          simp only [Option.bind_eq_bind, Option.some_bind] at hstep
          injection hstep with hstep
          have hst21 : st2.1 = s.1 := by rw [← hstep]
          obtain ⟨l1, l2, l3, l4, l5⟩ := depr_loop_spec
            (process_segment segment plots g_line line counter).2.2.1 ids
            ((process_segment segment plots g_line line counter).1,
             (process_segment segment plots g_line line counter).2.1,
             GLine.push ngl segment
               (process_segment segment plots g_line line counter).2.2.1) s
            (h4 hWF)
            (fun d2 hd2 => ((h2 d2).mp (by rw [hdep]; simpa using hd2)).2) hloop
          obtain ⟨c1, c2⟩ := l5 d hd
          constructor
          · rw [hst21]
            exact c1
          · intro e he
            rw [hst21]
            exact c2 e he

/-- Witness for C2_master_min_absorbs: a segment bridging two entries
with ids 1 and 0 resolves to master 0 and deprecates id 1. -/
theorem C2_master_min_absorbs_witness :
    (GLine.overlaps
        [((⟨'R', 0, 2⟩ : PlotSegment), 1, false), ((⟨'R', 3, 5⟩ : PlotSegment), 0, false)]
        ⟨'R', 1, 4⟩ ≠ [] ∧
      (keysOf [(0, [((0 : Nat), (⟨'R', 3, 5⟩ : PlotSegment))]),
        (1, [((0 : Nat), (⟨'R', 0, 2⟩ : PlotSegment))])]).Pairwise (· < ·)) ∧
    ((process_segment ⟨'R', 1, 4⟩
        [(0, [((0 : Nat), (⟨'R', 3, 5⟩ : PlotSegment))]),
         (1, [((0 : Nat), (⟨'R', 0, 2⟩ : PlotSegment))])]
        [((⟨'R', 0, 2⟩ : PlotSegment), 1, false), ((⟨'R', 3, 5⟩ : PlotSegment), 0, false)]
        1 2).2.2.1 ∈
      (GLine.overlaps
        [((⟨'R', 0, 2⟩ : PlotSegment), 1, false), ((⟨'R', 3, 5⟩ : PlotSegment), 0, false)]
        ⟨'R', 1, 4⟩).map Prod.snd) := by
  have h := C2_master_min_absorbs ⟨'R', 1, 4⟩
    [(0, [((0 : Nat), (⟨'R', 3, 5⟩ : PlotSegment))]),
     (1, [((0 : Nat), (⟨'R', 0, 2⟩ : PlotSegment))])]
    [((⟨'R', 0, 2⟩ : PlotSegment), 1, false), ((⟨'R', 3, 5⟩ : PlotSegment), 0, false)]
    1 2 (by decide) (by decide)
  exact ⟨⟨by decide, by decide⟩, h.1.1⟩

/-- An id reported by overlaps is an id held by the table. -/
theorem overlaps_id_mem (gl : GLine) (segment : PlotSegment) :
    ∀ m ∈ GLine.overlaps gl segment, m.2 ∈ idsOfG gl := by
  intro m hm
  obtain ⟨s, b, hg⟩ := overlaps_mem_spec gl segment m hm
  have hmem : (s, m.2, b) ∈ gl := List.getElem?_mem hg
  simpa [idsOfG] using List.mem_map_of_mem (fun e => e.2.1) hmem

/-- Tables with equal (segment, id) projections hold the same ids. -/
theorem idsOfG_of_proj (gl gl2 : GLine)
    (h : gl.map (fun e => (e.1, e.2.1)) = gl2.map (fun e => (e.1, e.2.1))) :
    idsOfG gl = idsOfG gl2 := by
  have h2 := congrArg (List.map Prod.snd) h
  simpa [idsOfG, List.map_map, Function.comp] using h2

/-- Ids of a push: the pushed id joins at the end. -/
theorem idsOfG_push (gl : GLine) (s : PlotSegment) (i : Nat) :
    idsOfG (GLine.push gl s i) = idsOfG gl ++ [i] := by
  simp [GLine.push, idsOfG]

/-- Ids after find_replace: the new id, or an old id other than the
replaced one. -/
theorem idsOfG_find_replace (gl : GLine) (f t : Nat) :
    ∀ id ∈ idsOfG (gl.find_replace_plot_id f t),
      id = t ∨ (id ∈ idsOfG gl ∧ id ≠ f) := by
  intro id hid
  simp only [idsOfG, GLine.find_replace_plot_id] at hid
  rcases List.mem_map.mp hid with ⟨e, he, rfl⟩
  rcases List.mem_map.mp he with ⟨e0, he0, rfl⟩
  by_cases h : e0.2.1 = f
  · simp only [if_pos h]
    exact Or.inl trivial
  · simp only [if_neg h]
    exact Or.inr ⟨List.mem_map_of_mem (fun e => e.2.1) he0, h⟩

/-- Keys after draining a scanline into the store come from the store
or from the drained ids. -/
theorem mem_keys_push_segments (line : Nat) :
    ∀ (gl : GLine) (g : Garden) (k : Nat),
      k ∈ keysOf (push_segments g gl line) → k ∈ keysOf g ∨ k ∈ idsOfG gl := by
  intro gl
  induction gl with
  | nil =>
      intro g k hk
      exact Or.inl hk
  | cons e rest ih =>
      intro g k hk
      have hk2 : k ∈ keysOf (push_segments
          (Garden.entryInsert g e.2.1 (line - 1, e.1)) rest line) := by
        simpa [push_segments] using hk
      rcases ih (Garden.entryInsert g e.2.1 (line - 1, e.1)) k hk2 with hk3 | hk3
      · rcases (mem_keys_entryInsert e.2.1 (line - 1, e.1) g k).mp hk3 with h | h
        · exact Or.inl h
        · right
          simp only [idsOfG, List.map_cons, List.mem_cons]
          exact Or.inl h
      · right
        simp only [idsOfG, List.map_cons, List.mem_cons]
        right
        simpa [idsOfG] using hk3

/-- The instrumented deprecation loop preserves line hygiene: every id
of the store and of the two scanlines stays below the counter bound and
off the deprecated list, deprecated ids stay below the counter bound,
and the store keys stay sorted. -/
theorem depr_loop_d_inv (master c : Nat) :
    ∀ (ids : List Nat) (st out : Garden × GLine × GLine × List Nat),
      master < c →
      master ∉ st.2.2.2 →
      (∀ d ∈ ids, d ≠ master) →
      (∀ id ∈ idsOfG st.2.1, id < c ∧ id ∉ st.2.2.2) →
      (∀ id ∈ idsOfG st.2.2.1, id < c ∧ id ∉ st.2.2.2) →
      (∀ k ∈ keysOf st.1, k < c ∧ k ∉ st.2.2.2) →
      (∀ d ∈ st.2.2.2, d < c) →
      (keysOf st.1).Pairwise (· < ·) →
      ids.foldlM (depr_step_d master) st = some out →
      (∀ id ∈ idsOfG out.2.1, id < c ∧ id ∉ out.2.2.2) ∧
      (∀ id ∈ idsOfG out.2.2.1, id < c ∧ id ∉ out.2.2.2) ∧
      (∀ k ∈ keysOf out.1, k < c ∧ k ∉ out.2.2.2) ∧
      (∀ d ∈ out.2.2.2, d < c) ∧
      (keysOf out.1).Pairwise (· < ·) := by
  intro ids
  induction ids with
  | nil =>
      intro st out _ _ _ h1 h2 h3 h4 h5 hrun
      have hout : out = st := by simpa using hrun.symm
      subst hout
      exact ⟨h1, h2, h3, h4, h5⟩
  | cons d rest ih =>
      intro st out hm hmD hne h1 h2 h3 h4 h5 hrun
      rw [List.foldlM_cons] at hrun
      cases hstep : depr_step_d master st d with
      | none => rw [hstep] at hrun; simp at hrun
      | some mid =>
          rw [hstep] at hrun
          simp only [Option.bind_eq_bind, Option.some_bind] at hrun
          unfold depr_step_d at hstep
          cases hrem : st.1.remove d with
          | none => rw [hrem] at hstep; simp at hstep
          | some r =>
              rw [hrem] at hstep
              rcases r with ⟨p, g1⟩
              simp only [Option.bind_eq_bind, Option.some_bind] at hstep
              injection hstep with hstep
              obtain ⟨f1, f2, f3, f4, f5⟩ := remove_spec st.1 d p g1 hrem
              have hdk : d ∈ keysOf st.1 := find?_mem_keys st.1 d p f1
              have hdc : d < c := (h3 d hdk).1
              have hdm : d ≠ master := hne d (List.mem_cons_self d rest)
              have hmid1 : mid.1 = g1.extend master p := by rw [← hstep]
              have hmid21 : mid.2.1 = st.2.1.find_replace_plot_id d master := by
                rw [← hstep]
              have hmid221 : mid.2.2.1 = st.2.2.1.find_replace_plot_id d master := by
                rw [← hstep]
              have hmid222 : mid.2.2.2 = st.2.2.2 ++ [d] := by rw [← hstep]
              have hmD2 : master ∉ mid.2.2.2 := by
                rw [hmid222]
                simp only [List.mem_append, List.mem_singleton]
                rintro (h | h)
                · exact hmD h
                · exact hdm h.symm
              have hrep : ∀ (gl : GLine),
                  (∀ id ∈ idsOfG gl, id < c ∧ id ∉ st.2.2.2) →
                  ∀ id ∈ idsOfG (gl.find_replace_plot_id d master),
                    id < c ∧ id ∉ mid.2.2.2 := by
                intro gl hgl id hid
                rcases idsOfG_find_replace gl d master id hid with h | ⟨h, hne2⟩
                · subst h
                  exact ⟨hm, hmD2⟩
                · obtain ⟨hc1, hc2⟩ := hgl id h
                  refine ⟨hc1, ?_⟩
                  rw [hmid222]
                  simp only [List.mem_append, List.mem_singleton]
                  rintro (hx | hx)
                  · exact hc2 hx
                  · exact hne2 hx
              have hmid_h1 : ∀ id ∈ idsOfG mid.2.1, id < c ∧ id ∉ mid.2.2.2 := by
                rw [hmid21]
                exact hrep st.2.1 h1
              have hmid_h2 : ∀ id ∈ idsOfG mid.2.2.1, id < c ∧ id ∉ mid.2.2.2 := by
                rw [hmid221]
                exact hrep st.2.2.1 h2
              have hmid_h3 : ∀ k ∈ keysOf mid.1, k < c ∧ k ∉ mid.2.2.2 := by
                intro k hk
                rw [hmid1] at hk
                rcases (mem_keys_extend master p g1 k).mp hk with h | h
                · have hk1 : k ∈ keysOf st.1 := f3 k h
                  obtain ⟨hc1, hc2⟩ := h3 k hk1
                  have hkd : k ≠ d := by
                    intro hx
                    subst hx
                    exact f4 h5 h
                  refine ⟨hc1, ?_⟩
                  rw [hmid222]
                  simp only [List.mem_append, List.mem_singleton]
                  rintro (hx | hx)
                  · exact hc2 hx
                  · exact hkd hx
                · subst h
                  exact ⟨hm, hmD2⟩
              have hmid_h4 : ∀ d2 ∈ mid.2.2.2, d2 < c := by
                intro d2 hd2
                rw [hmid222] at hd2
                rcases List.mem_append.mp hd2 with h | h
                · exact h4 d2 h
                · rw [List.mem_singleton] at h
                  subst h
                  exact hdc
              have hmid_h5 : (keysOf mid.1).Pairwise (· < ·) := by
                rw [hmid1]
                exact keys_sorted_extend g1 master p (f5 h5)
              exact ih mid out hm hmD2
                (fun d2 hd2 => hne d2 (List.mem_cons_of_mem d hd2))
                hmid_h1 hmid_h2 hmid_h3 hmid_h4 hmid_h5 hrun

/-- One instrumented line step preserves line hygiene: the ids of both
scanlines and the keys of the store stay below the (stepped) counter
and off the (grown) deprecated list, which itself stays below the
counter, and store keys stay sorted. -/
theorem process_line_step_d_inv (line : Nat)
    (st st2 : Garden × GLine × GLine × Nat × List Nat) (seg : PlotSegment)
    (h1 : ∀ id ∈ idsOfG st.2.1, id < st.2.2.2.1 ∧ id ∉ st.2.2.2.2)
    (h2 : ∀ id ∈ idsOfG st.2.2.1, id < st.2.2.2.1 ∧ id ∉ st.2.2.2.2)
    (h3 : ∀ k ∈ keysOf st.1, k < st.2.2.2.1 ∧ k ∉ st.2.2.2.2)
    (h4 : ∀ d ∈ st.2.2.2.2, d < st.2.2.2.1)
    (h5 : (keysOf st.1).Pairwise (· < ·))
    (hstep : process_line_step_d line st seg = some st2) :
    (∀ id ∈ idsOfG st2.2.1, id < st2.2.2.2.1 ∧ id ∉ st2.2.2.2.2) ∧
    (∀ id ∈ idsOfG st2.2.2.1, id < st2.2.2.2.1 ∧ id ∉ st2.2.2.2.2) ∧
    (∀ k ∈ keysOf st2.1, k < st2.2.2.2.1 ∧ k ∉ st2.2.2.2.2) ∧
    (∀ d ∈ st2.2.2.2.2, d < st2.2.2.2.1) ∧
    (keysOf st2.1).Pairwise (· < ·) := by
  simp only [process_line_step_d] at hstep
  by_cases hov : GLine.overlaps st.2.1 seg = []
  · have hcond : (GLine.overlaps st.2.1 seg).isEmpty = true := by
      rw [hov]
      rfl
    have hr : process_segment seg st.1 st.2.1 line st.2.2.2.1 =
        (st.1, st.2.1, st.2.2.2.1, none, st.2.2.2.1 + 1) := by
      simp only [process_segment]
      rw [if_pos hcond]
    simp only [hr] at hstep
    injection hstep with hstep
    have e1 : st2.1 = st.1 := by rw [← hstep]
    have e2 : st2.2.1 = st.2.1 := by rw [← hstep]
    have e3 : st2.2.2.1 = GLine.push st.2.2.1 seg st.2.2.2.1 := by rw [← hstep]
    have e4 : st2.2.2.2.1 = st.2.2.2.1 + 1 := by rw [← hstep]
    have e5 : st2.2.2.2.2 = st.2.2.2.2 := by rw [← hstep]
    refine ⟨?_, ?_, ?_, ?_, ?_⟩
    · intro id hid
      rw [e2] at hid
      rw [e4, e5]
      obtain ⟨ha, hb⟩ := h1 id hid
      exact ⟨by omega, hb⟩
    · intro id hid
      rw [e3, idsOfG_push] at hid
      rw [e4, e5]
      rcases List.mem_append.mp hid with h | h
      · obtain ⟨ha, hb⟩ := h2 id h
        exact ⟨by omega, hb⟩
      · rw [List.mem_singleton] at h
        subst h
        refine ⟨by omega, ?_⟩
        intro hmem
        have := h4 _ hmem
        omega
    · intro k hk
      rw [e1] at hk
      rw [e4, e5]
      obtain ⟨ha, hb⟩ := h3 k hk
      exact ⟨by omega, hb⟩
    · intro d hd
      rw [e5] at hd
      rw [e4]
      have := h4 d hd
      omega
    · rw [e1]
      exact h5
  · obtain ⟨⟨hm1, _⟩, hdep_iff, hkeys, hsort, hcnt, hproj⟩ :=
      process_segment_spec seg st.1 st.2.1 line st.2.2.2.1 hov
    set r := process_segment seg st.1 st.2.1 line st.2.2.2.1 with hrdef
    have hmaster_mem : r.2.2.1 ∈ idsOfG st.2.1 := by
      rcases List.mem_map.mp hm1 with ⟨m, hm, hmv⟩
      rw [← hmv]
      exact overlaps_id_mem st.2.1 seg m hm
    obtain ⟨hmc, hmD⟩ := h1 r.2.2.1 hmaster_mem
    have hids_r : idsOfG r.2.1 = idsOfG st.2.1 := idsOfG_of_proj _ _ hproj
    have hr1keys : ∀ k ∈ keysOf r.1, k < st.2.2.2.1 ∧ k ∉ st.2.2.2.2 := by
      intro k hk
      rcases hkeys k hk with h | h
      · exact h3 k h
      · rcases List.mem_map.mp h with ⟨m, hm, hmv⟩
        have hkm : k ∈ idsOfG st.2.1 := by
          rw [← hmv]
          exact overlaps_id_mem st.2.1 seg m hm
        exact h1 k hkm
    have hh1 : ∀ id ∈ idsOfG r.2.1, id < st.2.2.2.1 ∧ id ∉ st.2.2.2.2 := by
      intro id hid
      rw [hids_r] at hid
      exact h1 id hid
    have hh2 : ∀ id ∈ idsOfG (GLine.push st.2.2.1 seg r.2.2.1),
        id < st.2.2.2.1 ∧ id ∉ st.2.2.2.2 := by
      intro id hid
      rw [idsOfG_push] at hid
      rcases List.mem_append.mp hid with h | h
      · exact h2 id h
      · rw [List.mem_singleton] at h
        subst h
        exact ⟨hmc, hmD⟩
    cases hdep : r.2.2.2.1 with
    | none =>
        simp only [hdep] at hstep
        injection hstep with hstep
        have e1 : st2.1 = r.1 := by rw [← hstep]
        have e2 : st2.2.1 = r.2.1 := by rw [← hstep]
        have e3 : st2.2.2.1 = GLine.push st.2.2.1 seg r.2.2.1 := by rw [← hstep]
        have e4 : st2.2.2.2.1 = st.2.2.2.1 := by
          rw [← hstep]
          exact hcnt
        have e5 : st2.2.2.2.2 = st.2.2.2.2 := by rw [← hstep]
        refine ⟨?_, ?_, ?_, ?_, ?_⟩
        · intro id hid
          rw [e2] at hid
          rw [e4, e5]
          exact hh1 id hid
        · intro id hid
          rw [e3] at hid
          rw [e4, e5]
          exact hh2 id hid
        · intro k hk
          rw [e1] at hk
          rw [e4, e5]
          exact hr1keys k hk
        · intro d hd
          rw [e5] at hd
          rw [e4]
          exact h4 d hd
        · rw [e1]
          exact hsort h5
    | some ids =>
        simp only [hdep] at hstep
        cases hloop : ids.foldlM (depr_step_d r.2.2.1)
            (r.1, r.2.1, GLine.push st.2.2.1 seg r.2.2.1, st.2.2.2.2) with
        | none => rw [hloop] at hstep; simp at hstep
        | some s =>
            rw [hloop] at hstep
            simp only [Option.bind_eq_bind, Option.some_bind] at hstep
            injection hstep with hstep
            have hids_ne : ∀ d ∈ ids, d ≠ r.2.2.1 := by
              intro d hd
              have hmem : d ∈ r.2.2.2.1.getD [] := by
                rw [hdep]
                simpa using hd
              exact ((hdep_iff d).mp hmem).2
            obtain ⟨g1, g2, g3, g4, g5⟩ := depr_loop_d_inv r.2.2.1 st.2.2.2.1 ids
              (r.1, r.2.1, GLine.push st.2.2.1 seg r.2.2.1, st.2.2.2.2) s
              hmc hmD hids_ne hh1 hh2 hr1keys h4 (hsort h5) hloop
            have e1 : st2.1 = s.1 := by rw [← hstep]
            have e2 : st2.2.1 = s.2.1 := by rw [← hstep]
            have e3 : st2.2.2.1 = s.2.2.1 := by rw [← hstep]
            have e4 : st2.2.2.2.1 = st.2.2.2.1 := by
              rw [← hstep]
              exact hcnt
            have e5 : st2.2.2.2.2 = s.2.2.2 := by rw [← hstep]
            refine ⟨?_, ?_, ?_, ?_, ?_⟩
            · intro id hid
              rw [e2] at hid
              rw [e4, e5]
              exact g1 id hid
            · intro id hid
              rw [e3] at hid
              rw [e4, e5]
              exact g2 id hid
            · intro k hk
              rw [e1] at hk
              rw [e4, e5]
              exact g3 k hk
            · intro d hd
              rw [e5] at hd
              rw [e4]
              exact g4 d hd
            · rw [e1]
              exact g5

/-- The segment fold of an instrumented line run preserves hygiene. -/
theorem line_fold_d_inv (line : Nat) :
    ∀ (segs : List PlotSegment) (st out : Garden × GLine × GLine × Nat × List Nat),
      (∀ id ∈ idsOfG st.2.1, id < st.2.2.2.1 ∧ id ∉ st.2.2.2.2) →
      (∀ id ∈ idsOfG st.2.2.1, id < st.2.2.2.1 ∧ id ∉ st.2.2.2.2) →
      (∀ k ∈ keysOf st.1, k < st.2.2.2.1 ∧ k ∉ st.2.2.2.2) →
      (∀ d ∈ st.2.2.2.2, d < st.2.2.2.1) →
      (keysOf st.1).Pairwise (· < ·) →
      segs.foldlM (process_line_step_d line) st = some out →
      (∀ id ∈ idsOfG out.2.1, id < out.2.2.2.1 ∧ id ∉ out.2.2.2.2) ∧
      (∀ id ∈ idsOfG out.2.2.1, id < out.2.2.2.1 ∧ id ∉ out.2.2.2.2) ∧
      (∀ k ∈ keysOf out.1, k < out.2.2.2.1 ∧ k ∉ out.2.2.2.2) ∧
      (∀ d ∈ out.2.2.2.2, d < out.2.2.2.1) ∧
      (keysOf out.1).Pairwise (· < ·) := by
  intro segs
  induction segs with
  | nil =>
      intro st out h1 h2 h3 h4 h5 hrun
      have hout : out = st := by simpa using hrun.symm
      subst hout
      exact ⟨h1, h2, h3, h4, h5⟩
  | cons seg rest ih =>
      intro st out h1 h2 h3 h4 h5 hrun
      rw [List.foldlM_cons] at hrun
      cases hstep : process_line_step_d line st seg with
      | none => rw [hstep] at hrun; simp at hrun
      | some st2 =>
          rw [hstep] at hrun
          simp only [Option.bind_eq_bind, Option.some_bind] at hrun
          obtain ⟨g1, g2, g3, g4, g5⟩ :=
            process_line_step_d_inv line st st2 seg h1 h2 h3 h4 h5 hstep
          exact ih st2 out g1 g2 g3 g4 g5 hrun

/-- The instrumented deprecation step is the plain step with a ghost
list carried alongside. -/
theorem depr_step_eq_d (m : Nat) (g : Garden) (gl ngl : GLine) (D : List Nat)
    (d : Nat) :
    depr_step m (g, gl, ngl) d =
      (depr_step_d m (g, gl, ngl, D) d).map (fun r => (r.1, r.2.1, r.2.2.1)) := by
  cases hrem : g.remove d with
  | none =>
      unfold depr_step depr_step_d
      simp [hrem]
  | some r =>
      rcases r with ⟨p, g1⟩
      unfold depr_step depr_step_d
      simp [hrem]

/-- The instrumented deprecation loop is the plain loop with a ghost
list carried alongside. -/
theorem depr_loop_eq_d (m : Nat) :
    ∀ (ids : List Nat) (g : Garden) (gl ngl : GLine) (D : List Nat),
      ids.foldlM (depr_step m) (g, gl, ngl) =
        (ids.foldlM (depr_step_d m) (g, gl, ngl, D)).map
          (fun r => (r.1, r.2.1, r.2.2.1)) := by
  intro ids
  induction ids with
  | nil =>
      intro g gl ngl D
      simp
  | cons d rest ih =>
      intro g gl ngl D
      rw [List.foldlM_cons, List.foldlM_cons, depr_step_eq_d m g gl ngl D d]
      cases hstep : depr_step_d m (g, gl, ngl, D) d with
      | none => simp
      | some st4 =>
          simp only [Option.map_some', Option.bind_eq_bind, Option.some_bind]
          exact ih st4.1 st4.2.1 st4.2.2.1 st4.2.2.2

/-- The instrumented line step is the plain step with a ghost list. -/
theorem step_eq_d (line : Nat) (g : Garden) (gl ngl : GLine) (c : Nat)
    (D : List Nat) (seg : PlotSegment) :
    process_line_step line (g, gl, ngl, c) seg =
      (process_line_step_d line (g, gl, ngl, c, D) seg).map
        (fun r => (r.1, r.2.1, r.2.2.1, r.2.2.2.1)) := by
  simp only [process_line_step, process_line_step_d]
  cases hdep : (process_segment seg g gl line c).2.2.2.1 with
  | none => simp [hdep]
  | some ids =>
      simp only [hdep]
      have hle := depr_loop_eq_d (process_segment seg g gl line c).2.2.1 ids
        (process_segment seg g gl line c).1 (process_segment seg g gl line c).2.1
        (GLine.push ngl seg (process_segment seg g gl line c).2.2.1) D
      rw [hle]
      cases hloop : ids.foldlM (depr_step_d (process_segment seg g gl line c).2.2.1)
          ((process_segment seg g gl line c).1, (process_segment seg g gl line c).2.1,
           GLine.push ngl seg (process_segment seg g gl line c).2.2.1, D) with
      | none => simp
      | some s => simp

/-- The segment fold of process_line is the instrumented fold with the
ghost list dropped. -/
theorem line_fold_eq_d (line : Nat) :
    ∀ (segs : List PlotSegment) (g : Garden) (gl ngl : GLine) (c : Nat)
      (D : List Nat),
      segs.foldlM (process_line_step line) (g, gl, ngl, c) =
        (segs.foldlM (process_line_step_d line) (g, gl, ngl, c, D)).map
          (fun r => (r.1, r.2.1, r.2.2.1, r.2.2.2.1)) := by
  intro segs
  induction segs with
  | nil =>
      intro g gl ngl c D
      simp
  | cons seg rest ih =>
      intro g gl ngl c D
      rw [List.foldlM_cons, List.foldlM_cons, step_eq_d line g gl ngl c D seg]
      cases hstep : process_line_step_d line (g, gl, ngl, c, D) seg with
      | none => simp
      | some st4 =>
          simp only [Option.map_some', Option.bind_eq_bind, Option.some_bind]
          exact ih st4.1 st4.2.1 st4.2.2.1 st4.2.2.2.1 st4.2.2.2.2

/-- process_line is the instrumented process_line_d with the ghost
deprecated-id list dropped. -/
theorem process_line_eq_d (input : List Char) (plots : Garden) (g_line : GLine)
    (counter line : Nat) :
    process_line input plots g_line counter line =
      (process_line_d input plots g_line counter line).map
        (fun r => (r.1, r.2.1, r.2.2.1)) := by
  simp only [process_line, process_line_d]
  rw [line_fold_eq_d line (extract_ranges input) plots g_line [] counter []]
  cases hfold : (extract_ranges input).foldlM (process_line_step_d line)
      (plots, g_line, [], counter, []) with
  | none => simp
  | some st => simp

/-- C3.  Under the line hygiene that parse_plots maintains (every id of
the incoming active-line table and every key of the store is below the
id counter, and the store keys are sorted), a completed line run leaves
no stale deprecated id: process_line agrees with the instrumented
process_line_d, and neither the ids of the returned active-line table
nor the keys of the returned store meet the list of ids deprecated
during the line — so even multi-step deprecation chains (an id merged
into a second id that is itself merged into a third within the same
line) end with every reference resolved to the surviving id. -/
theorem C3_no_stale_deprecated_ids (input : List Char) (plots : Garden)
    (g_line : GLine) (counter line : Nat)
    (out : Garden × GLine × Nat × List Nat)
    (h1 : ∀ id ∈ idsOfG g_line, id < counter)
    (h2 : ∀ k ∈ keysOf plots, k < counter)
    (h3 : (keysOf plots).Pairwise (· < ·))
    (hrun : process_line_d input plots g_line counter line = some out) :
    process_line input plots g_line counter line =
      some (out.1, out.2.1, out.2.2.1) ∧
    (∀ id ∈ idsOfG out.2.1, id ∉ out.2.2.2) ∧
    (∀ k ∈ keysOf out.1, k ∉ out.2.2.2) := by
  have hrun0 := hrun
  simp only [process_line_d] at hrun
  cases hfold : (extract_ranges input).foldlM (process_line_step_d line)
      (plots, g_line, [], counter, []) with
  | none => rw [hfold] at hrun; simp at hrun
  | some st =>
      rw [hfold] at hrun
      simp only [Option.bind_eq_bind, Option.some_bind] at hrun
      injection hrun with hrun
      obtain ⟨g1, g2, g3, g4, g5⟩ := line_fold_d_inv line (extract_ranges input)
        (plots, g_line, [], counter, []) st
        (by intro id hid; exact ⟨h1 id hid, by simp⟩)
        (by intro id hid; simp [idsOfG] at hid)
        (by intro k hk; exact ⟨h2 k hk, by simp⟩)
        (by intro d hd; simp at hd)
        h3 hfold
      have e1 : out.1 = push_segments st.1 st.2.1.drain_unmatched line := by
        rw [← hrun]
      have e2 : out.2.1 = st.2.2.1 := by rw [← hrun]
      have e3 : out.2.2.2 = st.2.2.2.2 := by rw [← hrun]
      refine ⟨?_, ?_, ?_⟩
      · rw [process_line_eq_d, hrun0]
        rfl
      · intro id hid
        rw [e2] at hid
        rw [e3]
        exact (g2 id hid).2
      · intro k hk
        rw [e1] at hk
        rw [e3]
        rcases mem_keys_push_segments line st.2.1.drain_unmatched st.1 k hk with h | h
        · exact (g3 k h).2
        · have hmem : k ∈ idsOfG st.2.1 := by
            simp only [idsOfG, GLine.drain_unmatched] at h
            rcases List.mem_map.mp h with ⟨e, he, hv⟩
            rw [← hv]
            exact List.mem_map_of_mem (fun e => e.2.1) (List.mem_of_mem_filter he)
          exact (g1 k hmem).2

/-- Witness for C3_no_stale_deprecated_ids: the row AAAABAAAA run
against the scanline AABAAABAA with ids 2, 3, 5, 4, 1 deprecates id 5
into id 2 and then id 2 into id 1 (a chain), and the final tables
mention neither 5 nor 2. -/
theorem C3_no_stale_deprecated_ids_witness :
    ((∀ id ∈ idsOfG glW, id < 6) ∧ (∀ k ∈ keysOf plotsW, k < 6) ∧
      (keysOf plotsW).Pairwise (· < ·) ∧
      process_line_d rowW plotsW glW 6 1 = some outW) ∧
    (process_line rowW plotsW glW 6 1 = some (outW.1, outW.2.1, outW.2.2.1) ∧
      (∀ id ∈ idsOfG outW.2.1, id ∉ outW.2.2.2) ∧
      (∀ k ∈ keysOf outW.1, k ∉ outW.2.2.2)) :=
  ⟨⟨by decide, by decide, by decide, by rfl⟩,
    C3_no_stale_deprecated_ids rowW plotsW glW 6 1 outW (by decide) (by decide)
      (by decide) (by rfl)⟩

/-- shiftG on a cons. -/
theorem shiftG_cons (n : Nat) (y : Nat × Plot) (ys : Garden) :
    shiftG n (y :: ys) = (y.1 + n, y.2) :: shiftG n ys := rfl

/-- shiftL on a cons. -/
theorem shiftL_cons (n : Nat) (e : GLineEntry) (gl : GLine) :
    shiftL n (e :: gl) = (e.1, e.2.1 + n, e.2.2) :: shiftL n gl := rfl

/-- The overlap query only reads segments, so it commutes with an id
shift of the table: the same indices come back with shifted ids. -/
theorem overlaps_shift (n : Nat) (gl : GLine) (seg : PlotSegment) :
    GLine.overlaps (shiftL n gl) seg = (GLine.overlaps gl seg).map (shiftM n) := by
  unfold GLine.overlaps shiftL
  rw [List.takeWhile_map]
  have hp : ((fun e : GLineEntry => decide (seg.stop > e.1.start)) ∘
      (fun e : GLineEntry => (e.1, e.2.1 + n, e.2.2))) =
      (fun e : GLineEntry => decide (seg.stop > e.1.start)) := by
    funext e
    rfl
  rw [hp, List.enum_map, List.filterMap_map, List.map_filterMap]
  congr 1
  funext p
  by_cases hc : p.2.1.plant = seg.plant ∧ p.2.1.is_overlapping seg
  · simp [Function.comp, Prod.map, hc, shiftM]
  · simp [Function.comp, Prod.map, hc, shiftM]

/-- Ordered insertion by id commutes with an id shift. -/
theorem orderedInsert_shift (n : Nat) (a : Nat × Nat) :
    ∀ l : List (Nat × Nat),
      List.orderedInsert (fun x y : Nat × Nat => x.2 ≤ y.2) (shiftM n a)
          (l.map (shiftM n)) =
        (List.orderedInsert (fun x y : Nat × Nat => x.2 ≤ y.2) a l).map
          (shiftM n) := by
  intro l
  induction l with
  | nil => rfl
  | cons b t ih =>
      simp only [List.map_cons, List.orderedInsert]
      by_cases h : a.2 ≤ b.2
      · rw [if_pos (show (shiftM n a).2 ≤ (shiftM n b).2 from
          Nat.add_le_add_right h n), if_pos h]
        rfl
      · have hc : ¬ (shiftM n a).2 ≤ (shiftM n b).2 := by
          simp only [shiftM]
          omega
        rw [if_neg hc, if_neg h]
        simp only [List.map_cons]
        rw [ih]

/-- The stable sort by id commutes with an id shift. -/
theorem insertionSort_shift (n : Nat) :
    ∀ l : List (Nat × Nat),
      List.insertionSort (fun x y : Nat × Nat => x.2 ≤ y.2) (l.map (shiftM n)) =
        (List.insertionSort (fun x y : Nat × Nat => x.2 ≤ y.2) l).map
          (shiftM n) := by
  intro l
  induction l with
  | nil => rfl
  | cons a t ih =>
      simp only [List.map_cons, List.insertionSort]
      rw [ih]
      exact orderedInsert_shift n a
        (List.insertionSort (fun x y : Nat × Nat => x.2 ≤ y.2) t)

/-- Flagging an entry as matched commutes with an id shift. -/
theorem flag_matched_shift (n : Nat) (gl : GLine) (i : Nat) :
    (shiftL n gl).flag_matched i = shiftL n (gl.flag_matched i) := by
  unfold GLine.flag_matched
  simp only [List.get?_eq_getElem?]
  unfold shiftL
  rw [List.getElem?_map]
  cases hg : gl[i]? with
  | none => rfl
  | some e =>
      rcases e with ⟨s, id, b⟩
      simp only [Option.map_some']
      rw [List.map_set]

/-- entry(id).or_default().insert commutes with an id shift. -/
theorem entryInsert_shift (n : Nat) :
    ∀ (g : Garden) (id : Nat) (e : Nat × PlotSegment),
      (shiftG n g).entryInsert (id + n) e = shiftG n (g.entryInsert id e) := by
  intro g
  induction g with
  | nil => intro id e; rfl
  | cons x xs ih =>
      intro id e
      rcases x with ⟨k, p⟩
      simp only [shiftG] at ih ⊢
      simp only [List.map_cons, Garden.entryInsert]
      by_cases h1 : id < k
      · rw [if_pos (show id + n < k + n by omega), if_pos h1]
        simp
      · rw [if_neg (show ¬ id + n < k + n by omega), if_neg h1]
        by_cases h2 : id = k
        · rw [if_pos (show id + n = k + n by omega), if_pos h2]
          simp
        · rw [if_neg (show ¬ id + n = k + n by omega), if_neg h2]
          simp only [List.map_cons]
          rw [ih id e]

/-- entry(id).or_default().extend commutes with an id shift. -/
theorem extend_shift (n : Nat) :
    ∀ (g : Garden) (id : Nat) (q : Plot),
      (shiftG n g).extend (id + n) q = shiftG n (g.extend id q) := by
  intro g
  induction g with
  | nil => intro id q; rfl
  | cons x xs ih =>
      intro id q
      rcases x with ⟨k, p⟩
      simp only [shiftG] at ih ⊢
      simp only [List.map_cons, Garden.extend]
      by_cases h1 : id < k
      · rw [if_pos (show id + n < k + n by omega), if_pos h1]
        simp
      · rw [if_neg (show ¬ id + n < k + n by omega), if_neg h1]
        by_cases h2 : id = k
        · rw [if_pos (show id + n = k + n by omega), if_pos h2]
          simp
        · rw [if_neg (show ¬ id + n = k + n by omega), if_neg h2]
          simp only [List.map_cons]
          rw [ih id q]

/-- remove commutes with an id shift. -/
theorem remove_shift (n : Nat) :
    ∀ (g : Garden) (d : Nat),
      (shiftG n g).remove (d + n) =
        (g.remove d).map (fun r => (r.1, shiftG n r.2)) := by
  intro g
  induction g with
  | nil => intro d; rfl
  | cons x xs ih =>
      intro d
      rcases x with ⟨k, p⟩
      simp only [shiftG] at ih ⊢
      simp only [List.map_cons, Garden.remove]
      by_cases h : d = k
      · rw [if_pos (show d + n = k + n by omega), if_pos h]
        rfl
      · rw [if_neg (show ¬ d + n = k + n by omega), if_neg h]
        rw [ih d, Option.map_map, Option.map_map]
        congr 1

/-- find_replace_plot_id commutes with an id shift of both arguments. -/
theorem find_replace_shift (n : Nat) (gl : GLine) (a b : Nat) :
    (shiftL n gl).find_replace_plot_id (a + n) (b + n) =
      shiftL n (gl.find_replace_plot_id a b) := by
  unfold GLine.find_replace_plot_id shiftL
  rw [List.map_map, List.map_map]
  congr 1
  funext e
  by_cases h : e.2.1 = a
  · simp [Function.comp, h]
  · have h2 : ¬ e.2.1 + n = a + n := by omega
    simp [Function.comp, h, h2]

/-- drain_unmatched only reads the matched flag, so it commutes with an
id shift. -/
theorem drain_shift (n : Nat) (gl : GLine) :
    (shiftL n gl).drain_unmatched = shiftL n gl.drain_unmatched := by
  unfold GLine.drain_unmatched shiftL
  have hp : ((fun e : GLineEntry => !e.2.2) ∘
      (fun e : GLineEntry => (e.1, e.2.1 + n, e.2.2))) =
      (fun e : GLineEntry => !e.2.2) := by
    funext e
    rfl
  rw [List.filter_map, hp]

/-- push commutes with an id shift. -/
theorem push_shift (n : Nat) (gl : GLine) (seg : PlotSegment) (id : Nat) :
    GLine.push (shiftL n gl) seg (id + n) = shiftL n (GLine.push gl seg id) := by
  simp [GLine.push, shiftL]

/-- push_segments commutes with an id shift. -/
theorem push_segments_shift (n line : Nat) :
    ∀ (gl : GLine) (g : Garden),
      push_segments (shiftG n g) (shiftL n gl) line =
        shiftG n (push_segments g gl line) := by
  intro gl
  induction gl with
  | nil => intro g; rfl
  | cons e rest ih =>
      intro g
      rw [shiftL_cons]
      simp only [push_segments, List.foldl_cons]
      rw [entryInsert_shift n g e.2.1 (line - 1, e.1)]
      exact ih (Garden.entryInsert g e.2.1 (line - 1, e.1))

/-- The per-match fold of process_segment commutes with an id shift of
the matches, the store, the scanline, the master and the deprecated
list. -/
theorem segBody_fold_shift (line n : Nat) :
    ∀ (l : List (Nat × Nat)) (g : Garden) (gl : GLine) (mid : Nat)
      (d0 : Option (List Nat)),
      (∀ m ∈ l, ∃ s b, gl[m.1]? = some (s, m.2, b)) →
      (l.map (shiftM n)).foldl (segBody line)
          (shiftG n g, shiftL n gl, mid + n, shiftD n d0) =
        (shiftG n (l.foldl (segBody line) (g, gl, mid, d0)).1,
         shiftL n (l.foldl (segBody line) (g, gl, mid, d0)).2.1,
         (l.foldl (segBody line) (g, gl, mid, d0)).2.2.1 + n,
         shiftD n (l.foldl (segBody line) (g, gl, mid, d0)).2.2.2) := by
  intro l
  induction l with
  | nil =>
      intro g gl mid d0 _
      rfl
  | cons m rest ih =>
      intro g gl mid d0 hh
      obtain ⟨s, b, hget⟩ := hh m (List.mem_cons_self m rest)
      have hproj := flag_matched_proj gl m.1
      obtain ⟨s2, b2, hget2⟩ :=
        proj_preserves_id gl (gl.flag_matched m.1) hproj m.1 m.2 s b hget
      have hbody : segBody line (g, gl, mid, d0) m =
          (g.entryInsert m.2 (line - 1, s2), gl.flag_matched m.1, mid,
            if m.2 ≠ mid then some (d0.getD [] ++ [m.2]) else d0) := by
        simp only [segBody]
        rw [List.getD_eq_getElem?_getD, hget2]
        rfl
      have hshift_depr : (if m.2 + n ≠ mid + n then
            some ((shiftD n d0).getD [] ++ [m.2 + n]) else shiftD n d0) =
          shiftD n (if m.2 ≠ mid then some (d0.getD [] ++ [m.2]) else d0) := by
        by_cases hm : m.2 = mid
        · rw [if_neg (by omega), if_neg (by omega)]
        · rw [if_pos (show m.2 + n ≠ mid + n by omega), if_pos hm]
          cases d0 with
          | none => simp [shiftD]
          | some ds => simp [shiftD]
      have hbody2 : segBody line (shiftG n g, shiftL n gl, mid + n, shiftD n d0)
          (shiftM n m) =
          (shiftG n (g.entryInsert m.2 (line - 1, s2)),
           shiftL n (gl.flag_matched m.1), mid + n,
           shiftD n (if m.2 ≠ mid then some (d0.getD [] ++ [m.2]) else d0)) := by
        simp only [segBody, shiftM]
        rw [flag_matched_shift]
        rw [List.getD_eq_getElem?_getD]
        rw [show (shiftL n (gl.flag_matched m.1))[m.1]? = some (s2, m.2 + n, b2) from by
          unfold shiftL
          rw [List.getElem?_map, hget2]
          rfl]
        simp only [Option.getD_some]
        rw [entryInsert_shift]
        rw [hshift_depr]
      rw [List.map_cons, List.foldl_cons, List.foldl_cons]
      rw [hbody, hbody2]
      exact ih (g.entryInsert m.2 (line - 1, s2)) (gl.flag_matched m.1) mid
        (if m.2 ≠ mid then some (d0.getD [] ++ [m.2]) else d0)
        (fun m2 hm2 => by
          obtain ⟨s3, b3, hg3⟩ := hh m2 (List.mem_cons_of_mem m hm2)
          exact proj_preserves_id gl (gl.flag_matched m.1) hproj m2.1 m2.2 s3 b3 hg3)

/-- segBody_fold_shift at the empty initial deprecated list, as
process_segment uses it. -/
theorem segBody_fold_shift_none (line n : Nat) (l : List (Nat × Nat)) (g : Garden)
    (gl : GLine) (mid : Nat)
    (hh : ∀ m ∈ l, ∃ s b, gl[m.1]? = some (s, m.2, b)) :
    (l.map (shiftM n)).foldl (segBody line)
        (shiftG n g, shiftL n gl, mid + n, none) =
      (shiftG n (l.foldl (segBody line) (g, gl, mid, none)).1,
       shiftL n (l.foldl (segBody line) (g, gl, mid, none)).2.1,
       (l.foldl (segBody line) (g, gl, mid, none)).2.2.1 + n,
       shiftD n (l.foldl (segBody line) (g, gl, mid, none)).2.2.2) :=
  segBody_fold_shift line n l g gl mid none hh

/-- process_segment commutes with an id shift of store, scanline and
counter: the resolved id, the deprecated ids and the fresh counter all
shift along. -/
theorem process_segment_shift (n : Nat) (seg : PlotSegment) (g : Garden)
    (gl : GLine) (line c : Nat) :
    process_segment seg (shiftG n g) (shiftL n gl) line (c + n) =
      (shiftG n (process_segment seg g gl line c).1,
       shiftL n (process_segment seg g gl line c).2.1,
       (process_segment seg g gl line c).2.2.1 + n,
       shiftD n (process_segment seg g gl line c).2.2.2.1,
       (process_segment seg g gl line c).2.2.2.2 + n) := by
  by_cases hov : GLine.overlaps gl seg = []
  · have hov2 : GLine.overlaps (shiftL n gl) seg = [] := by
      rw [overlaps_shift, hov]
      rfl
    have hc1 : (GLine.overlaps gl seg).isEmpty = true := by rw [hov]; rfl
    have hc2 : (GLine.overlaps (shiftL n gl) seg).isEmpty = true := by
      rw [hov2]
      rfl
    simp only [process_segment]
    rw [if_pos hc1, if_pos hc2]
    rw [show c + n + 1 = c + 1 + n from by omega]
    rfl
  · have hov2 : GLine.overlaps (shiftL n gl) seg ≠ [] := by
      rw [overlaps_shift]
      simp [hov]
    have hc1 : ¬ (GLine.overlaps gl seg).isEmpty = true := by
      rw [List.isEmpty_iff]
      exact hov
    have hc2 : ¬ (GLine.overlaps (shiftL n gl) seg).isEmpty = true := by
      rw [List.isEmpty_iff]
      exact hov2
    have hsort_eq : List.insertionSort (fun a b : Nat × Nat => a.2 ≤ b.2)
        (GLine.overlaps (shiftL n gl) seg) =
        (List.insertionSort (fun a b : Nat × Nat => a.2 ≤ b.2)
          (GLine.overlaps gl seg)).map (shiftM n) := by
      rw [overlaps_shift]
      exact insertionSort_shift n (GLine.overlaps gl seg)
    have hperm := List.perm_insertionSort (fun a b : Nat × Nat => a.2 ≤ b.2)
      (GLine.overlaps gl seg)
    cases hseq : List.insertionSort (fun a b : Nat × Nat => a.2 ≤ b.2)
        (GLine.overlaps gl seg) with
    | nil =>
        rw [hseq] at hperm
        exact absurd hperm.symm.eq_nil hov
    | cons m0 rest =>
        rw [hseq] at hperm
        have hhyp : ∀ mm ∈ m0 :: rest, ∃ s b, gl[mm.1]? = some (s, mm.2, b) := by
          intro mm hmm
          exact overlaps_mem_spec gl seg mm (hperm.mem_iff.mp hmm)
        obtain ⟨s0, b0, hg0⟩ := hhyp m0 (List.mem_cons_self m0 rest)
        have hm_base : (gl.getD ((m0 :: rest).headD (0, 0)).1 dfltEntry).2.1 =
            m0.2 := by
          simp only [List.headD_cons]
          rw [List.getD_eq_getElem?_getD, hg0]
          rfl
        have hm_shift : ((shiftL n gl).getD
            (((m0 :: rest).map (shiftM n)).headD (0, 0)).1 dfltEntry).2.1 =
            m0.2 + n := by
          simp only [List.map_cons, List.headD_cons, shiftM]
          rw [List.getD_eq_getElem?_getD]
          rw [show (shiftL n gl)[m0.1]? = some (s0, m0.2 + n, b0) from by
            unfold shiftL
            rw [List.getElem?_map, hg0]
            rfl]
          rfl
        have hbase : process_segment seg g gl line c =
            (((m0 :: rest).foldl (segBody line) (g, gl, m0.2, none)).1,
             ((m0 :: rest).foldl (segBody line) (g, gl, m0.2, none)).2.1,
             ((m0 :: rest).foldl (segBody line) (g, gl, m0.2, none)).2.2.1,
             ((m0 :: rest).foldl (segBody line) (g, gl, m0.2, none)).2.2.2,
             c) := by
          simp only [process_segment]
          rw [if_neg hc1, hseq, hm_base]
        have hshift : process_segment seg (shiftG n g) (shiftL n gl) line (c + n) =
            ((((m0 :: rest).map (shiftM n)).foldl (segBody line)
                (shiftG n g, shiftL n gl, m0.2 + n, none)).1,
             (((m0 :: rest).map (shiftM n)).foldl (segBody line)
                (shiftG n g, shiftL n gl, m0.2 + n, none)).2.1,
             (((m0 :: rest).map (shiftM n)).foldl (segBody line)
                (shiftG n g, shiftL n gl, m0.2 + n, none)).2.2.1,
             (((m0 :: rest).map (shiftM n)).foldl (segBody line)
                (shiftG n g, shiftL n gl, m0.2 + n, none)).2.2.2,
             c + n) := by
          simp only [process_segment]
          rw [if_neg hc2, hsort_eq, hseq, hm_shift]
        rw [hbase, hshift]
        rw [segBody_fold_shift_none line n (m0 :: rest) g gl m0.2 hhyp]

/-- One deprecation step commutes with an id shift. -/
theorem depr_step_shift (n m : Nat) (g : Garden) (gl ngl : GLine) (d : Nat) :
    depr_step (m + n) (shiftG n g, shiftL n gl, shiftL n ngl) (d + n) =
      (depr_step m (g, gl, ngl) d).map
        (fun s => (shiftG n s.1, shiftL n s.2.1, shiftL n s.2.2)) := by
  cases hrem : g.remove d with
  | none =>
      simp only [depr_step]
      rw [remove_shift, hrem]
      rfl
  | some r =>
      rcases r with ⟨p, g1⟩
      simp only [depr_step]
      rw [remove_shift, hrem]
      simp only [Option.map_some', Option.bind_eq_bind, Option.some_bind]
      rw [extend_shift, find_replace_shift, find_replace_shift]

/-- The deprecation loop commutes with an id shift. -/
theorem depr_loop_shift (n m : Nat) :
    ∀ (ids : List Nat) (g : Garden) (gl ngl : GLine),
      (ids.map (fun i => i + n)).foldlM (depr_step (m + n))
          (shiftG n g, shiftL n gl, shiftL n ngl) =
        (ids.foldlM (depr_step m) (g, gl, ngl)).map
          (fun s => (shiftG n s.1, shiftL n s.2.1, shiftL n s.2.2)) := by
  intro ids
  induction ids with
  | nil =>
      intro g gl ngl
      rfl
  | cons d rest ih =>
      intro g gl ngl
      rw [List.map_cons, List.foldlM_cons, List.foldlM_cons, depr_step_shift]
      cases hstep : depr_step m (g, gl, ngl) d with
      | none => simp
      | some s =>
          simp only [Option.map_some', Option.bind_eq_bind, Option.some_bind]
          exact ih s.1 s.2.1 s.2.2

/-- One segment step of process_line commutes with an id shift. -/
theorem process_line_step_shift (n line : Nat) (g : Garden) (gl ngl : GLine)
    (c : Nat) (seg : PlotSegment) :
    process_line_step line (shiftG n g, shiftL n gl, shiftL n ngl, c + n) seg =
      (process_line_step line (g, gl, ngl, c) seg).map
        (fun s => (shiftG n s.1, shiftL n s.2.1, shiftL n s.2.2.1, s.2.2.2 + n)) := by
  simp only [process_line_step]
  rw [process_segment_shift]
  cases hdep : (process_segment seg g gl line c).2.2.2.1 with
  | none =>
      simp only [hdep, shiftD, Option.map_none', Option.map_some']
      rw [push_shift]
  | some ids =>
      simp only [hdep, shiftD, Option.map_some']
      rw [push_shift, depr_loop_shift]
      cases hloop : ids.foldlM
          (depr_step (process_segment seg g gl line c).2.2.1)
          ((process_segment seg g gl line c).1,
           (process_segment seg g gl line c).2.1,
           GLine.push ngl seg (process_segment seg g gl line c).2.2.1) with
      | none => simp
      | some s => simp

/-- The segment fold of process_line commutes with an id shift. -/
theorem line_fold_shift (n line : Nat) :
    ∀ (segs : List PlotSegment) (g : Garden) (gl ngl : GLine) (c : Nat),
      segs.foldlM (process_line_step line)
          (shiftG n g, shiftL n gl, shiftL n ngl, c + n) =
        (segs.foldlM (process_line_step line) (g, gl, ngl, c)).map
          (fun s => (shiftG n s.1, shiftL n s.2.1, shiftL n s.2.2.1, s.2.2.2 + n)) := by
  intro segs
  induction segs with
  | nil =>
      intro g gl ngl c
      rfl
  | cons seg rest ih =>
      intro g gl ngl c
      rw [List.foldlM_cons, List.foldlM_cons, process_line_step_shift]
      cases hstep : process_line_step line (g, gl, ngl, c) seg with
      | none => simp
      | some s =>
          simp only [Option.map_some', Option.bind_eq_bind, Option.some_bind]
          exact ih s.1 s.2.1 s.2.2.1 s.2.2.2

/-- A whole line run commutes with an id shift. -/
theorem process_line_shift (n : Nat) (input : List Char) (g : Garden)
    (gl : GLine) (c line : Nat) :
    process_line input (shiftG n g) (shiftL n gl) (c + n) line =
      (process_line input g gl c line).map
        (fun r => (shiftG n r.1, shiftL n r.2.1, r.2.2 + n)) := by
  simp only [process_line]
  have hf := line_fold_shift n line (extract_ranges input) g gl [] c
  rw [show shiftL n [] = ([] : GLine) from rfl] at hf
  rw [hf]
  cases hfold : (extract_ranges input).foldlM (process_line_step line)
      (g, gl, [], c) with
  | none => rfl
  | some st =>
      simp only [Option.map_some', Option.bind_eq_bind, Option.some_bind]
      rw [drain_shift, push_segments_shift]

/-- The per-row fold of parse_plots commutes with an id shift. -/
theorem parse_fold_shift (n : Nat) :
    ∀ (rows : List (Nat × List Char)) (g : Garden) (gl : GLine) (c : Nat),
      rows.foldlM
          (fun (acc : Garden × GLine × Nat) p =>
            process_line p.2 acc.1 acc.2.1 acc.2.2 p.1)
          (shiftG n g, shiftL n gl, c + n) =
        (rows.foldlM
            (fun (acc : Garden × GLine × Nat) p =>
              process_line p.2 acc.1 acc.2.1 acc.2.2 p.1)
            (g, gl, c)).map
          (fun st => (shiftG n st.1, shiftL n st.2.1, st.2.2 + n)) := by
  intro rows
  induction rows with
  | nil =>
      intro g gl c
      rfl
  | cons row rest ih =>
      intro g gl c
      simp only [List.foldlM_cons]
      rw [process_line_shift]
      cases hstep : process_line row.2 g gl c row.1 with
      | none => simp
      | some st =>
          simp only [Option.map_some', Option.bind_eq_bind, Option.some_bind]
          exact ih st.1 st.2.1 st.2.2

/-- Starting the id generator at n instead of 0 only shifts every plot
id of the final store by n; the plots themselves are identical. -/
theorem parse_plots_from_shift (n : Nat) (input : List (List Char)) :
    parse_plots_from n input = (parse_plots_from 0 input).map (shiftG n) := by
  simp only [parse_plots_from]
  have h0 : (([], [], n) : Garden × GLine × Nat) =
      (shiftG n [], shiftL n [], 0 + n) := by
    simp [shiftG, shiftL]
  rw [h0, parse_fold_shift]
  cases hfold : input.enum.foldlM
      (fun (acc : Garden × GLine × Nat) p =>
        process_line p.2 acc.1 acc.2.1 acc.2.2 p.1)
      (([], [], 0) : Garden × GLine × Nat) with
  | none => rfl
  | some st =>
      simp only [Option.map_some', Option.bind_eq_bind, Option.some_bind]
      rw [push_segments_shift]

/-- C9.  The multiset of (area, perimeter, sides) triples over the
discovered regions is a deterministic function of the input text alone:
the only incidental freedom of the algorithm, the origin of the plot id
generator, never changes it (id shifts leave every plot body untouched,
so re-running the parse with any two generator origins yields the same
multiset of metrics; on a panic both runs agree by both returning none). -/
theorem C9_metrics_deterministic (input : List (List Char)) (n m : Nat) :
    metrics_from n input = metrics_from m input := by
  have key : ∀ k, metrics_from k input = metrics_from 0 input := by
    intro k
    unfold metrics_from
    rw [parse_plots_from_shift k input, Option.map_map]
    congr 1
    funext g
    simp only [Function.comp_apply]
    congr 1
    unfold shiftG
    simp only [List.map_map]
    rfl
  rw [key n, key m]

end Day12
